import Mathlib

/-!
Shallow embedding of ChatFlow's real-time delivery subsystem
(`backend/app/websocket/manager.py` and `backend/app/websocket/router.py`).

The `ConnectionManager` state is embedded as association lists mirroring the
two Python dicts (`active_connections : user_id -> list of websockets`,
`chat_subscriptions : chat_id -> set of user_ids`) plus the Redis presence
set touched through `redis_manager.set_user_online / set_user_offline`.
Websockets are identified by a `Nat` token; transport write failures are
modelled by a predicate `fails : Conn -> Bool` (a write to connection `ws`
raises iff `fails ws`).  Every operation returns the new state together with
the list of observable effects (accepted sockets, successful sends, failed
send attempts, closes, Redis calls) in program order.

The Python disconnect path can recurse: `disconnect` may call
`broadcast_user_status`, whose `broadcast_to_chat` prunes further dead
connections by calling `disconnect` again.  Each pruning step removes a
registered connection (or a registry key), so the recursion is bounded by
the registry size; the embedding makes this explicit with a fuel parameter
that is consumed once per `disconnect` call, and the public entry points
supply fuel `totalConns + number of keys + 1`, which is strictly larger
than the number of disconnections any one call chain can perform.
-/

namespace ChatFlow

abbrev UserId := String
abbrev ChatId := String
abbrev Conn := Nat

/-- `WSEventType` from `app/schemas/websocket.py`. -/
inductive WSEventType where
  | connect | disconnect | ping | pong
  | message_new | message_update | message_delete | message_reaction | message_read
  | typing_start | typing_stop
  | user_online | user_offline | user_status
  | chat_new | chat_update | chat_delete | chat_member_join | chat_member_leave
  | notification | error
  deriving DecidableEq, Repr

/-- Payloads of the event envelopes that the delivery subsystem constructs. -/
inductive WSData where
  | userStatus (user_id : UserId) (status : String)
  | errorInfo (code : String) (message : String)
  | typing (chat_id : ChatId) (user_id : UserId) (username : String)
  | messageRead (chat_id : ChatId) (user_id : UserId) (message_id : String)
  | connectAck (user_id : UserId) (username : String) (chat_count : Nat)
  | empty
  | raw (payload : String)
  deriving DecidableEq, Repr

/-- The uniform envelope (`WSMessage`): event kind plus payload.  The
wall-clock timestamp is not modelled. -/
structure WSMsg where
  event : WSEventType
  data : WSData
  deriving DecidableEq, Repr

/-- Observable effects, in program order. -/
inductive Eff where
  | accept (ws : Conn)
  | send (ws : Conn) (msg : WSMsg)
  | sendFail (ws : Conn) (msg : WSMsg)
  | close (ws : Conn) (code : Nat) (reason : String)
  | redisOnline (u : UserId)
  | redisOffline (u : UserId)
  | redisTyping (u : UserId) (c : ChatId) (t : Bool)
  deriving DecidableEq, Repr

/-- The `ConnectionManager` state (plus the Redis presence set). -/
structure CM where
  active_connections : List (UserId × List Conn)
  chat_subscriptions : List (ChatId × List UserId)
  presence : List UserId
  deriving DecidableEq, Repr

/-- The empty manager (`ConnectionManager.__init__`). -/
def CM.init : CM := ⟨[], [], []⟩

/-! ### Association-list primitives (Python dict / set semantics) -/

/-- Python `d[k]` / `k in d`: first binding of `k`. -/
def alookup {α β : Type} [DecidableEq α] (k : α) : List (α × β) → Option β
  | [] => none
  | (a, b) :: rest => if a = k then some b else alookup k rest

/-- Python `d[k] = v`: overwrite in place, or append a fresh key
(insertion order, as for a Python dict). -/
def aset {α β : Type} [DecidableEq α] (k : α) (v : β) : List (α × β) → List (α × β)
  | [] => [(k, v)]
  | (a, b) :: rest => if a = k then (k, v) :: rest else (a, b) :: aset k v rest

/-- Python `del d[k]`. -/
def adel {α β : Type} [DecidableEq α] (k : α) : List (α × β) → List (α × β)
  | [] => []
  | (a, b) :: rest => if a = k then rest else (a, b) :: adel k rest

/-- Python `list.remove(x)`: drop the first occurrence. -/
def removeFirst {α : Type} [DecidableEq α] (x : α) : List α → List α
  | [] => []
  | a :: rest => if a = x then rest else a :: removeFirst x rest

/-- Python `set.add`. -/
def setAdd {α : Type} [DecidableEq α] (x : α) (s : List α) : List α :=
  if x ∈ s then s else s ++ [x]

/-- The connections registered for `u` (empty when the key is absent). -/
def connsOf (u : UserId) (st : CM) : List Conn :=
  (alookup u st.active_connections).getD []

/-- The subscriber set of chat `c` (empty when the key is absent). -/
def subsOf (c : ChatId) (st : CM) : List UserId :=
  (alookup c st.chat_subscriptions).getD []

/-! ### The event dispatcher -/

/-- The envelope `broadcast_user_status` builds for a status change. -/
def statusMsg (u : UserId) (status : String) : WSMsg :=
  { event := if status = "online" then .user_online else .user_offline
    data := .userStatus u status }

/-- One `websocket.send_text` attempt under the failure model. -/
def attemptSend (fails : Conn → Bool) (ws : Conn) (m : WSMsg) : Eff :=
  if fails ws then .sendFail ws m else .send ws m

/-- `if exclude_user and user_id == exclude_user` — note Python truthiness:
an empty-string `exclude_user` excludes nobody. -/
def excludeHit (exclude : Option UserId) (uid : UserId) : Bool :=
  match exclude with
  | none => false
  | some e => decide (e ≠ "") && decide (uid = e)

mutual

/-- `ConnectionManager.disconnect`: remove `ws` from `u`'s list; when the
list becomes empty, delete the key, clear the Redis presence lease and
broadcast the user's offline status. -/
def disconnectF (fails : Conn → Bool) (fuel : Nat) (ws : Conn) (u : UserId)
    (st : CM) : CM × List Eff :=
  match fuel with
  | 0 => (st, [])
  | f + 1 =>
    match alookup u st.active_connections with
    | none => (st, [])
    | some conns =>
      let conns2 := if ws ∈ conns then removeFirst ws conns else conns
      if conns2 = [] then
        let st1 : CM :=
          { st with
            active_connections := adel u st.active_connections
            presence := st.presence.filter (fun v => v ≠ u) }
        let r := bcastUserStatusGoF fails f st1.chat_subscriptions u "offline" st1
        (r.1, Eff.redisOffline u :: r.2)
      else
        ({ st with active_connections := aset u conns2 st.active_connections }, [])
  termination_by (fuel, 0, 0)

/-- The `for ws in disconnected: await self.disconnect(ws, user_id)` cleanup
loops of `send_personal_message` and `broadcast_to_chat`. -/
def disconnectListF (fails : Conn → Bool) (fuel : Nat) (wss : List Conn)
    (u : UserId) (st : CM) : CM × List Eff :=
  match wss with
  | [] => (st, [])
  | ws :: rest =>
    let r1 := disconnectF fails fuel ws u st
    let r2 := disconnectListF fails fuel rest u r1.1
    (r2.1, r1.2 ++ r2.2)
  termination_by (fuel, 1, wss.length)

/-- The subscriber loop of `ConnectionManager.broadcast_to_chat`: for each
non-excluded subscriber with live connections, attempt the send on every
connection, then prune the connections whose write failed. -/
def broadcastToChatGoF (fails : Conn → Bool) (fuel : Nat) (users : List UserId)
    (msg : WSMsg) (exclude : Option UserId) (st : CM) : CM × List Eff :=
  match users with
  | [] => (st, [])
  | uid :: rest =>
    if excludeHit exclude uid then
      broadcastToChatGoF fails fuel rest msg exclude st
    else
      match alookup uid st.active_connections with
      | none => broadcastToChatGoF fails fuel rest msg exclude st
      | some conns =>
        let sends := conns.map (fun ws => attemptSend fails ws msg)
        let failed := conns.filter (fun ws => fails ws)
        let r1 := disconnectListF fails fuel failed uid st
        let r2 := broadcastToChatGoF fails fuel rest msg exclude r1.1
        (r2.1, sends ++ r1.2 ++ r2.2)
  termination_by (fuel, 2, users.length)

/-- `ConnectionManager.broadcast_to_chat` body: look up the chat's
subscriber set and fan out. -/
def broadcastToChatF (fails : Conn → Bool) (fuel : Nat) (chat : ChatId)
    (msg : WSMsg) (exclude : Option UserId) (st : CM) : CM × List Eff :=
  match alookup chat st.chat_subscriptions with
  | none => (st, [])
  | some users => broadcastToChatGoF fails fuel users msg exclude st
  termination_by (fuel, 3, 0)

/-- The chat loop of `ConnectionManager.broadcast_user_status`: for every
chat whose subscriber set contains `u`, broadcast the status envelope to
that chat excluding `u`. -/
def bcastUserStatusGoF (fails : Conn → Bool) (fuel : Nat)
    (items : List (ChatId × List UserId)) (u : UserId) (status : String)
    (st : CM) : CM × List Eff :=
  match items with
  | [] => (st, [])
  | (chat, users) :: rest =>
    if u ∈ users then
      let r1 := broadcastToChatF fails fuel chat (statusMsg u status) (some u) st
      let r2 := bcastUserStatusGoF fails fuel rest u status r1.1
      (r2.1, r1.2 ++ r2.2)
    else bcastUserStatusGoF fails fuel rest u status st
  termination_by (fuel, 4, items.length)

end

/-- Total number of registered connections. -/
def totalConns (st : CM) : Nat :=
  (st.active_connections.map (fun p => p.2.length)).sum

/-- Fuel bound that no call chain starting from `st` can exhaust: every
consumed unit of fuel corresponds to a `disconnect` call, and each
`disconnect` call either removes a registered connection or a registry key,
or stops the cascade. -/
def fuelOf (st : CM) : Nat :=
  totalConns st + st.active_connections.length + 1

/-- `ConnectionManager.disconnect` entry point. -/
def disconnect (fails : Conn → Bool) (ws : Conn) (u : UserId) (st : CM) :
    CM × List Eff :=
  disconnectF fails (fuelOf st) ws u st

/-- `ConnectionManager.broadcast_user_status` entry point. -/
def broadcast_user_status (fails : Conn → Bool) (u : UserId) (status : String)
    (st : CM) : CM × List Eff :=
  bcastUserStatusGoF fails (fuelOf st) st.chat_subscriptions u status st

/-- `ConnectionManager.broadcast_to_chat` entry point. -/
def broadcast_to_chat (fails : Conn → Bool) (chat : ChatId) (event : WSEventType)
    (data : WSData) (exclude : Option UserId) (st : CM) : CM × List Eff :=
  broadcastToChatF fails (fuelOf st) chat ⟨event, data⟩ exclude st

/-- `ConnectionManager.connect`: accept, register the socket (creating the
user's list if absent), set the Redis presence lease, broadcast the online
status. -/
def connect (fails : Conn → Bool) (ws : Conn) (u : UserId) (st : CM) :
    CM × List Eff :=
  let conns := (alookup u st.active_connections).getD []
  let st1 : CM :=
    { st with
      active_connections := aset u (conns ++ [ws]) st.active_connections
      presence := setAdd u st.presence }
  let r := broadcast_user_status fails u "online" st1
  (r.1, Eff.accept ws :: Eff.redisOnline u :: r.2)

/-- `ConnectionManager.subscribe_to_chat`. -/
def subscribe_to_chat (u : UserId) (c : ChatId) (st : CM) : CM :=
  let users := (alookup c st.chat_subscriptions).getD []
  { st with chat_subscriptions := aset c (setAdd u users) st.chat_subscriptions }

/-- `ConnectionManager.unsubscribe_from_chat` (`set.discard`). -/
def unsubscribe_from_chat (u : UserId) (c : ChatId) (st : CM) : CM :=
  match alookup c st.chat_subscriptions with
  | none => st
  | some users =>
    { st with
      chat_subscriptions := aset c (users.filter (fun v => v ≠ u)) st.chat_subscriptions }

/-- `ConnectionManager.send_personal_message`: attempt the envelope on every
registered connection of `u`, then prune the connections whose write
failed. -/
def send_personal_message (fails : Conn → Bool) (u : UserId)
    (event : WSEventType) (data : WSData) (st : CM) : CM × List Eff :=
  let msg : WSMsg := ⟨event, data⟩
  match alookup u st.active_connections with
  | none => (st, [])
  | some conns =>
    let sends := conns.map (fun ws => attemptSend fails ws msg)
    let failed := conns.filter (fun ws => fails ws)
    let r := disconnectListF fails (fuelOf st) failed u st
    (r.1, sends ++ r.2)

/-- Outcome of a Python call that may raise: a normal return, or an uncaught
exception propagating to the caller.  Both carry the state and the effects
performed up to that point.  The exception's `str(e)` text is not modelled
(see `pyExcMessage`). -/
inductive PyResult where
  | ok (st : CM) (effs : List Eff)
  | exc (st : CM) (effs : List Eff)
  deriving DecidableEq, Repr

/-- Stands for Python's `str(e)` in the outer handler's
`websocket.close(code=4000, reason=str(e))`; the exception text itself
(a `ValueError` from `uuid.UUID` or an `AttributeError` from `.get` on a
non-object) is not modelled. -/
def pyExcMessage : String := "unhandled exception"

/-- A hexadecimal digit (`0-9`, `a-f` as code points 97-102, `A-F` as code
points 65-70), as `int(_, 16)` accepts in `uuid.UUID`. -/
def isHexChar (c : Char) : Bool :=
  c.isDigit || (decide (97 ≤ c.toNat) && decide (c.toNat ≤ 102)) ||
    (decide (65 ≤ c.toNat) && decide (c.toNat ≤ 70))

/-- A curly brace, by code point (123 and 125), as stripped from the ends
of the string by `uuid.UUID`. -/
def isBraceChar (c : Char) : Bool :=
  c.toNat == 123 || c.toNat == 125

/-- Does `tok` occur at the head of `l`? -/
def matchesAt (tok l : List Char) : Bool :=
  l.take tok.length == tok

/-- Remove every occurrence of `tok` from the list (Python
`str.replace(tok, "")`), written with a structural fuel so the kernel can
evaluate it on concrete inputs. -/
def stripTokenAux (tok : List Char) : Nat → List Char → List Char
  | 0, _ => []
  | _, [] => []
  | n + 1, c :: rest =>
    if matchesAt tok (c :: rest) then
      stripTokenAux tok n (rest.drop (tok.length - 1))
    else c :: stripTokenAux tok n rest

def stripToken (tok : List Char) (l : List Char) : List Char :=
  stripTokenAux tok l.length l

/-- CPython's `uuid.UUID(hex)` acceptance, used for the client-supplied id
strings the manager parses: every `urn:` and `uuid:` occurrence removed,
curly braces stripped from both ends, hyphens removed, and exactly 32
hexadecimal digits left.  (The lenient fringe `int(hex, 16)` would also
accept — surrounding whitespace, a sign, underscores between digits — is
not modelled.) -/
def pyUUIDOk (s : String) : Bool :=
  let t1 := stripToken ("uuid:".toList) (stripToken ("urn:".toList) s.toList)
  let t2 := ((t1.dropWhile isBraceChar).reverse.dropWhile isBraceChar).reverse
  let t3 := t2.filter (fun c => !(c.toNat == 45))
  t3.length == 32 && t3.all isHexChar

/-- `ConnectionManager.send_typing_status`.  Building the `WSTyping`
payload parses the client-supplied chat id (and the user id) with
`uuid.UUID`; an unparsable id raises `ValueError` before anything is
broadcast or written to Redis, and the exception propagates to the
caller. -/
def send_typing_status (fails : Conn → Bool) (chat : ChatId) (u : UserId)
    (uname : String) (is_typing : Bool) (st : CM) : PyResult :=
  let ev := if is_typing then WSEventType.typing_start else WSEventType.typing_stop
  if pyUUIDOk chat && pyUUIDOk u then
    let r := broadcast_to_chat fails chat ev (.typing chat u uname) (some u) st
    .ok r.1 (r.2 ++ [Eff.redisTyping u chat is_typing])
  else .exc st []

/-- `ConnectionManager.send_read_receipt`.  Building the `WSMessageRead`
payload parses the client-supplied chat id, the user id and the
client-supplied message id with `uuid.UUID`; an unparsable id raises
`ValueError` before anything is broadcast, and the exception propagates. -/
def send_read_receipt (fails : Conn → Bool) (chat : ChatId) (u : UserId)
    (message_id : String) (st : CM) : PyResult :=
  if pyUUIDOk chat && pyUUIDOk u && pyUUIDOk message_id then
    let r := broadcast_to_chat fails chat .message_read
      (.messageRead chat u message_id) (some u) st
    .ok r.1 r.2
  else .exc st []

/-- `ConnectionManager.is_user_online`. -/
def is_user_online (u : UserId) (st : CM) : Bool :=
  (alookup u st.active_connections).isSome

/-- `ConnectionManager.get_online_users_count`. -/
def get_online_users_count (st : CM) : Nat :=
  st.active_connections.length

/-! ### The WebSocket router (`app/websocket/router.py`) -/

/-- Python truthiness for an optional string (`if token:` / `if chat_id:`):
`None` and the empty string are both falsy. -/
def truthy (o : Option String) : Option String :=
  match o with
  | none => none
  | some s => if s = "" then none else some s

/-- The fields a decoded inbound frame's `data` object may carry. -/
structure FrameData where
  chat_id : Option ChatId
  message_id : Option String
  deriving DecidableEq, Repr

/-- The JSON value found under a frame's `data` key: a JSON object (with
the modelled fields), or any non-object JSON value — on which the
handler's `data.get(...)` raises `AttributeError`.  An absent `data` key
decodes to `obj ⟨none, none⟩` (the `{}` default of
`message.get("data", {})`). -/
inductive FrameVal where
  | obj (d : FrameData)
  | nonObj
  deriving DecidableEq, Repr

/-- An inbound frame after `json.loads`: undecodable text
(`json.JSONDecodeError`), a valid-JSON non-object — on which
`message.get("event")` raises `AttributeError` — or a JSON object with an
optional `event` kind string and a `data` value. -/
inductive Inbound where
  | malformed
  | nonObject
  | frame (event : Option String) (data : FrameVal)
  deriving DecidableEq, Repr

/-- The error envelope `send_error` builds (`WSError` + `ERROR` kind). -/
def errMsg (code : String) (message : String) : WSMsg :=
  ⟨.error, .errorInfo code message⟩

/-- How Python renders the offending `event` field inside the
`f"Unknown event type: {event_type}"` message. -/
def eventTypeRepr (ev : Option String) : String :=
  match ev with
  | some s => s
  | none => "None"

/-- `send_error`: write an error envelope back to the sender's own socket. -/
def send_error (ws : Conn) (code : String) (message : String) : Eff :=
  Eff.send ws (errMsg code message)

/-- `handle_websocket_event`: dispatch a decoded frame by its `event` kind
string.  `membership c u` is the durable store's `ChatMember` point read
(`chat_id = c, user_id = u, is_active = True`).  A branch that reads
`data.get(...)` raises `AttributeError` when `data` is not an object, and
the typing / read-receipt branches propagate the `ValueError` a bad
client-supplied UUID causes in the manager; the `ping` and
unknown-event branches never touch `data`. -/
def handle_websocket_event (fails : Conn → Bool)
    (membership : ChatId → UserId → Bool) (ws : Conn) (uid : UserId)
    (uname : String) (event_type : Option String) (data : FrameVal)
    (st : CM) : PyResult :=
  if event_type = some "ping" then
    .ok st [Eff.send ws ⟨.pong, .empty⟩, Eff.redisOnline uid]
  else if event_type = some "typing.start" then
    match data with
    | .nonObj => .exc st []
    | .obj d =>
      match truthy d.chat_id with
      | some c => send_typing_status fails c uid uname true st
      | none => .ok st []
  else if event_type = some "typing.stop" then
    match data with
    | .nonObj => .exc st []
    | .obj d =>
      match truthy d.chat_id with
      | some c => send_typing_status fails c uid uname false st
      | none => .ok st []
  else if event_type = some "message.read" then
    match data with
    | .nonObj => .exc st []
    | .obj d =>
      match truthy d.chat_id, truthy d.message_id with
      | some c, some m => send_read_receipt fails c uid m st
      | _, _ => .ok st []
  else if event_type = some "subscribe" then
    match data with
    | .nonObj => .exc st []
    | .obj d =>
      match truthy d.chat_id with
      | some c =>
        if membership c uid then .ok (subscribe_to_chat uid c st) [] else .ok st []
      | none => .ok st []
  else if event_type = some "unsubscribe" then
    match data with
    | .nonObj => .exc st []
    | .obj d =>
      match truthy d.chat_id with
      | some c => .ok (unsubscribe_from_chat uid c st) []
      | none => .ok st []
  else
    .ok st [send_error ws "UNKNOWN_EVENT" ("Unknown event type: " ++ eventTypeRepr event_type)]

/-- One iteration of the `while True` read loop after a frame arrives.  The
inner `except` catches only `json.JSONDecodeError` (error envelope, loop
continues); any other exception raised while handling the frame — the
`AttributeError` of a non-object frame or non-object `data` value, the
`ValueError` of a bad client-supplied UUID — escapes the loop to
`websocket_endpoint`'s `except Exception` handler, which calls
`connection_manager.disconnect` and then closes the connection with code
4000.  The returned `Bool` is whether the loop continues. -/
def loop_step (fails : Conn → Bool) (membership : ChatId → UserId → Bool)
    (ws : Conn) (uid : UserId) (uname : String) (inb : Inbound) (st : CM) :
    CM × List Eff × Bool :=
  match inb with
  | .malformed => (st, [send_error ws "INVALID_JSON" "Invalid JSON format"], true)
  | .nonObject =>
    let r := disconnect fails ws uid st
    (r.1, r.2 ++ [Eff.close ws 4000 pyExcMessage], false)
  | .frame ev data =>
    match handle_websocket_event fails membership ws uid uname ev data st with
    | .ok st2 effs => (st2, effs, true)
    | .exc st2 effs =>
      let r := disconnect fails ws uid st2
      (r.1, effs ++ r.2 ++ [Eff.close ws 4000 pyExcMessage], false)

/-- A verified user record, as resolved by `get_user_from_token`. -/
structure AuthUser where
  id : UserId
  username : String
  deriving DecidableEq, Repr

/-- The pre-loop part of `websocket_endpoint`: token check, authentication,
`connect`, seeding the chat subscriptions from the durable membership list,
and the connection acknowledgement frame. -/
def websocket_endpoint_handshake (fails : Conn → Bool)
    (verify : String → Option AuthUser) (userChats : UserId → List ChatId)
    (ws : Conn) (token : Option String) (st : CM) : CM × List Eff :=
  match truthy token with
  | none => (st, [Eff.close ws 4001 "Missing authentication token"])
  | some t =>
    match verify t with
    | none => (st, [Eff.close ws 4001 "Invalid authentication token"])
    | some user =>
      let r := connect fails ws user.id st
      let chats := userChats user.id
      let st2 := chats.foldl (fun s c => subscribe_to_chat user.id c s) r.1
      (st2, r.2 ++ [Eff.send ws ⟨.connect, .connectAck user.id user.username chats.length⟩])

/-- The `except WebSocketDisconnect` path of `websocket_endpoint`: the only
cleanup performed when the read loop ends is `connection_manager.disconnect`. -/
def websocket_endpoint_on_disconnect (fails : Conn → Bool) (ws : Conn)
    (u : UserId) (st : CM) : CM × List Eff :=
  disconnect fails ws u st

/-! ### Derived notions used by the verification -/

inductive Shrunk : List (UserId × List Conn) → List (UserId × List Conn) → Prop where
  | nil : Shrunk [] []
  | keep {u : UserId} {cs2 cs1 : List Conn} {t2 t1 : List (UserId × List Conn)} :
      List.Sublist cs2 cs1 → Shrunk t2 t1 → Shrunk ((u, cs2) :: t2) ((u, cs1) :: t1)
  | drop {u : UserId} {cs1 : List Conn} {t2 t1 : List (UserId × List Conn)} :
      Shrunk t2 t1 → Shrunk t2 ((u, cs1) :: t1)

/-- `Pres st r`: state `r` is reachable from `st` by pruning only — the
chat subscriptions are untouched, the registry has only shrunk, the Redis
presence set has only shrunk, and no registry entry has been emptied
without being deleted. -/
def Pres (st r : CM) : Prop :=
  r.chat_subscriptions = st.chat_subscriptions ∧
  Shrunk r.active_connections st.active_connections ∧
  List.Sublist r.presence st.presence ∧
  ((∀ p ∈ st.active_connections, p.2 ≠ []) → ∀ p ∈ r.active_connections, p.2 ≠ [])

/-- Well-formedness of a `ConnectionManager` state: every registry entry is
non-empty, registry keys are unique, no websocket is registered twice (under
one user or under two users), subscription keys are unique, and each chat's
subscriber list is duplicate-free (it embeds a Python `set`). -/
def Invariant (st : CM) : Prop :=
  (∀ p ∈ st.active_connections, p.2 ≠ []) ∧
  (st.active_connections.map Prod.fst).Nodup ∧
  ((st.active_connections.map Prod.snd).flatten).Nodup ∧
  (st.chat_subscriptions.map Prod.fst).Nodup ∧
  (∀ q ∈ st.chat_subscriptions, q.2.Nodup)

instance (st : CM) : Decidable (Invariant st) := by
  unfold Invariant
  exact inferInstance

/-- All states the `ConnectionManager` singleton can be driven into by
`connect` / `disconnect` / `subscribe_to_chat` / `unsubscribe_from_chat`
calls, with arbitrary write-failure behaviour.  A `connect` may only hand
over a websocket object that is not currently registered (two live
transports are distinct objects, and Python's `in` compares websockets by
identity). -/
inductive Reachable : CM → Prop where
  | init : Reachable CM.init
  | connect_step (fails : Conn → Bool) (ws : Conn) (u : UserId) {st : CM} :
      Reachable st → (∀ p ∈ st.active_connections, ws ∉ p.2) →
      Reachable (connect fails ws u st).1
  | disconnect_step (fails : Conn → Bool) (ws : Conn) (u : UserId) {st : CM} :
      Reachable st → Reachable (disconnect fails ws u st).1
  | subscribe_step (u : UserId) (c : ChatId) {st : CM} :
      Reachable st → Reachable (subscribe_to_chat u c st)
  | unsubscribe_step (u : UserId) (c : ChatId) {st : CM} :
      Reachable st → Reachable (unsubscribe_from_chat u c st)

/-- A transport on which no write ever fails. -/
def noFail : Conn → Bool := fun _ => false

/-- The delivery plan of a failure-free `broadcast_to_chat` run over a given
subscriber list: one successful send per live connection of every
non-excluded subscriber, in iteration order. -/
def planSends (st : CM) (msg : WSMsg) (ex : Option UserId) : List UserId → List Eff
  | [] => []
  | uid :: rest =>
    (if excludeHit ex uid then [] else (connsOf uid st).map (fun ws => Eff.send ws msg))
      ++ planSends st msg ex rest

/-- The delivery plan of a failure-free `broadcast_user_status` run: one
`planSends` block per chat whose subscriber set contains `u`. -/
def planStatus (st : CM) (msg : WSMsg) (u : UserId) :
    List (ChatId × List UserId) → List Eff
  | [] => []
  | (chat, users) :: rest =>
    (if u ∈ users then planSends st msg (some u) (subsOf chat st) else [])
      ++ planStatus st msg u rest

/-- `attemptsConn e w`: effect `e` is a transport write (successful or
failed) on connection `w`. -/
def attemptsConn (e : Eff) (w : Conn) : Bool :=
  match e with
  | .send ws _ => ws = w
  | .sendFail ws _ => ws = w
  | _ => false

/-- All connections registered anywhere in the state. -/
def regConns (st : CM) : List Conn :=
  (st.active_connections.map Prod.snd).flatten

/-- Every transport write in `effs` targets a connection registered in `st`. -/
def AttemptsIn (effs : List Eff) (st : CM) : Prop :=
  ∀ e ∈ effs, ∀ w, attemptsConn e w = true → w ∈ regConns st

/-- Number of chats whose subscriber set contains both `u` and `v`. -/
def sharedChatCount (st : CM) (u v : UserId) : Nat :=
  (st.chat_subscriptions.filter (fun q => decide (u ∈ q.2) && decide (v ∈ q.2))).length

/-- The inbound event-kind strings `handle_websocket_event` dispatches on;
everything else falls into the `UNKNOWN_EVENT` branch. -/
def recognizedEvent (ev : Option String) : Bool :=
  decide (ev = some "ping") || decide (ev = some "typing.start") ||
  decide (ev = some "typing.stop") || decide (ev = some "message.read") ||
  decide (ev = some "subscribe") || decide (ev = some "unsubscribe")

/-- Example state: user `"a"` (connection 1) and user `"b"` (connection 2),
both subscribed to chat `"c"`, both holding a presence lease. -/
def stW : CM := ⟨[("a", [1]), ("b", [2])], [("c", ["a", "b"])], ["a", "b"]⟩

/-- Example state: users `"a"` and `"b"` share the two chats `"c1"` and
`"c2"`. -/
def stW2 : CM := ⟨[("a", [1]), ("b", [2])], [("c1", ["a", "b"]), ("c2", ["a", "b"])], ["a", "b"]⟩

/-- A transport on which exactly connection 1 is broken. -/
def fails1 : Conn → Bool := fun ws => decide (ws = 1)

/-! ### Association-list lemmas -/

section AssocLemmas

variable {α β : Type} [DecidableEq α]

theorem alookup_eq_none_iff {k : α} {a : List (α × β)} :
    alookup k a = none ↔ k ∉ a.map Prod.fst := by
  induction a with
  | nil => simp [alookup]
  | cons p rest ih =>
    obtain ⟨x, y⟩ := p
    by_cases hx : x = k
    · subst hx; simp [alookup]
    · simp [alookup, hx, ih, Ne.symm hx]

theorem alookup_mem {k : α} {v : β} {a : List (α × β)}
    (h : alookup k a = some v) : (k, v) ∈ a := by
  induction a with
  | nil => simp [alookup] at h
  | cons p rest ih =>
    obtain ⟨x, y⟩ := p
    by_cases hx : x = k
    · subst hx
      simp [alookup] at h
      simp [h]
    · simp [alookup, hx] at h
      exact List.mem_cons_of_mem _ (ih h)

theorem alookup_of_mem_nodup {k : α} {v : β} {a : List (α × β)}
    (hmem : (k, v) ∈ a) (hnd : (a.map Prod.fst).Nodup) :
    alookup k a = some v := by
  induction a with
  | nil => simp at hmem
  | cons p rest ih =>
    obtain ⟨x, y⟩ := p
    rw [List.map_cons, List.nodup_cons] at hnd
    rcases List.mem_cons.mp hmem with h | h
    · injection h with h1 h2
      subst h1; subst h2
      simp [alookup]
    · have hx : x ≠ k := by
        intro hxk
        subst hxk
        exact hnd.1 (List.mem_map.mpr ⟨(x, v), h, rfl⟩)
      simp [alookup, hx]
      exact ih h hnd.2

theorem alookup_aset_self (k : α) (v : β) (a : List (α × β)) :
    alookup k (aset k v a) = some v := by
  induction a with
  | nil => simp [aset, alookup]
  | cons p rest ih =>
    obtain ⟨x, y⟩ := p
    by_cases hx : x = k
    · subst hx; simp [aset, alookup]
    · simp [aset, alookup, hx, ih]

theorem alookup_aset_ne {k k2 : α} (v : β) (a : List (α × β)) (h : k2 ≠ k) :
    alookup k2 (aset k v a) = alookup k2 a := by
  induction a with
  | nil => simp [aset, alookup, Ne.symm h]
  | cons p rest ih =>
    obtain ⟨x, y⟩ := p
    by_cases hx : x = k
    · subst hx
      simp [aset, alookup, Ne.symm h]
    · by_cases hx2 : x = k2
      · subst hx2; simp [aset, alookup, hx]
      · simp [aset, alookup, hx, hx2, ih]

theorem aset_of_alookup_none {k : α} {a : List (α × β)} (v : β)
    (h : alookup k a = none) : aset k v a = a ++ [(k, v)] := by
  induction a with
  | nil => simp [aset]
  | cons p rest ih =>
    obtain ⟨x, y⟩ := p
    by_cases hx : x = k
    · subst hx; simp [alookup] at h
    · simp [alookup, hx] at h
      simp [aset, hx, ih h]

theorem keys_aset_of_mem {k : α} {v0 : β} {a : List (α × β)} (v : β)
    (h : alookup k a = some v0) :
    (aset k v a).map Prod.fst = a.map Prod.fst := by
  induction a with
  | nil => simp [alookup] at h
  | cons p rest ih =>
    obtain ⟨x, y⟩ := p
    by_cases hx : x = k
    · subst hx; simp [aset]
    · simp [alookup, hx] at h
      simp [aset, hx, ih h]

theorem mem_aset {k : α} {v : β} {p : α × β} {a : List (α × β)}
    (h : p ∈ aset k v a) : p = (k, v) ∨ p ∈ a := by
  induction a with
  | nil => simp [aset] at h; simp [h]
  | cons q rest ih =>
    obtain ⟨x, y⟩ := q
    by_cases hx : x = k
    · subst hx
      simp [aset] at h
      rcases h with h | h
      · exact Or.inl h
      · exact Or.inr (List.mem_cons_of_mem _ h)
    · simp [aset, hx] at h
      rcases h with h | h
      · exact Or.inr (by simp [h])
      · rcases ih h with h2 | h2
        · exact Or.inl h2
        · exact Or.inr (List.mem_cons_of_mem _ h2)

theorem adel_sublist (k : α) (a : List (α × β)) : List.Sublist (adel k a) a := by
  induction a with
  | nil => simp [adel]
  | cons p rest ih =>
    obtain ⟨x, y⟩ := p
    by_cases hx : x = k
    · subst hx
      simp only [adel, if_pos rfl]
      exact List.sublist_cons_self _ _
    · simpa [adel, hx] using ih.cons₂ (x, y)

theorem alookup_adel_ne {k k2 : α} (a : List (α × β)) (h : k2 ≠ k) :
    alookup k2 (adel k a) = alookup k2 a := by
  induction a with
  | nil => simp [adel]
  | cons p rest ih =>
    obtain ⟨x, y⟩ := p
    by_cases hx : x = k
    · subst hx
      simp [adel, alookup, Ne.symm h]
    · by_cases hx2 : x = k2
      · subst hx2; simp [adel, alookup, hx]
      · simp [adel, alookup, hx, hx2, ih]

theorem alookup_adel_self {k : α} {a : List (α × β)}
    (hnd : (a.map Prod.fst).Nodup) : alookup k (adel k a) = none := by
  induction a with
  | nil => simp [adel, alookup]
  | cons p rest ih =>
    obtain ⟨x, y⟩ := p
    rw [List.map_cons, List.nodup_cons] at hnd
    by_cases hx : x = k
    · subst hx
      simp only [adel, if_pos rfl]
      exact alookup_eq_none_iff.mpr hnd.1
    · simp [adel, alookup, hx]
      exact ih hnd.2

theorem removeFirst_sublist (x : α) (l : List α) :
    List.Sublist (removeFirst x l) l := by
  induction l with
  | nil => simp [removeFirst]
  | cons a rest ih =>
    by_cases hx : a = x
    · subst hx
      simp only [removeFirst, if_pos rfl]
      exact List.sublist_cons_self _ _
    · simpa [removeFirst, hx] using ih.cons₂ a

theorem mem_removeFirst_of_nodup {x y : α} {l : List α} (hnd : l.Nodup) :
    y ∈ removeFirst x l ↔ y ∈ l ∧ y ≠ x := by
  induction l with
  | nil => simp [removeFirst]
  | cons a rest ih =>
    simp at hnd
    by_cases hx : a = x
    · subst hx
      simp [removeFirst]
      constructor
      · intro hy
        refine ⟨Or.inr hy, ?_⟩
        intro hyx; subst hyx; exact hnd.1 hy
      · rintro ⟨hy | hy, hne⟩
        · exact absurd hy hne
        · exact hy
    · simp [removeFirst, hx]
      constructor
      · rintro (hy | hy)
        · subst hy; exact ⟨Or.inl rfl, hx⟩
        · have := (ih hnd.2).mp hy
          exact ⟨Or.inr this.1, this.2⟩
      · rintro ⟨hy | hy, hne⟩
        · exact Or.inl hy
        · exact Or.inr ((ih hnd.2).mpr ⟨hy, hne⟩)

theorem mem_setAdd {x y : α} {s : List α} :
    y ∈ setAdd x s ↔ y = x ∨ y ∈ s := by
  unfold setAdd
  by_cases hx : x ∈ s
  · rw [if_pos hx]
    constructor
    · exact Or.inr
    · rintro (rfl | hy)
      · exact hx
      · exact hy
  · rw [if_neg hx]
    simp [or_comm]

theorem setAdd_nodup {x : α} {s : List α} (h : s.Nodup) :
    (setAdd x s).Nodup := by
  unfold setAdd
  by_cases hx : x ∈ s
  · rwa [if_pos hx]
  · rw [if_neg hx]
    refine h.append (List.nodup_singleton x) ?_
    intro a ha hax
    rw [List.mem_singleton] at hax
    subst hax
    exact hx ha

theorem alookup_mem_flatten {u : α} {cs : List β} {x : β}
    {a : List (α × List β)} (h : alookup u a = some cs) (hx : x ∈ cs) :
    x ∈ (a.map Prod.snd).flatten := by
  induction a with
  | nil => simp [alookup] at h
  | cons p rest ih =>
    obtain ⟨k, l⟩ := p
    rw [List.map_cons, List.flatten_cons, List.mem_append]
    by_cases hk : k = u
    · subst hk
      simp [alookup] at h
      subst h
      exact Or.inl hx
    · simp [alookup, hk] at h
      exact Or.inr (ih h)

end AssocLemmas

/-! ### The shrinking relation on registries

Whatever the pruning cascade does to the connection registry, it only ever
deletes whole entries (`del d[u]`) or replaces an entry's list by a sublist
(`list.remove`).  `Shrunk` captures exactly that, entrywise and in order. -/

theorem shrunk_refl : ∀ a, Shrunk a a
  | [] => .nil
  | (_, cs) :: t => .keep (List.Sublist.refl cs) (shrunk_refl t)

theorem shrunk_trans {a3 a2 a1 : List (UserId × List Conn)}
    (h32 : Shrunk a3 a2) (h21 : Shrunk a2 a1) : Shrunk a3 a1 := by
  induction h21 generalizing a3 with
  | nil => exact h32
  | keep hcs ht ih =>
    cases h32 with
    | keep hcs2 ht2 => exact .keep (hcs2.trans hcs) (ih ht2)
    | drop ht2 => exact .drop (ih ht2)
  | drop ht ih => exact .drop (ih h32)

theorem Shrunk.keys {a2 a1 : List (UserId × List Conn)} (h : Shrunk a2 a1) :
    List.Sublist (a2.map Prod.fst) (a1.map Prod.fst) := by
  induction h with
  | nil => simp
  | keep hcs ht ih =>
    rw [List.map_cons, List.map_cons]
    exact ih.cons₂ _
  | drop ht ih =>
    rw [List.map_cons]
    exact ih.cons _

theorem Shrunk.conns {a2 a1 : List (UserId × List Conn)} (h : Shrunk a2 a1) :
    List.Sublist ((a2.map Prod.snd).flatten) ((a1.map Prod.snd).flatten) := by
  induction h with
  | nil => simp
  | keep hcs ht ih =>
    rw [List.map_cons, List.map_cons, List.flatten_cons, List.flatten_cons]
    exact hcs.append ih
  | drop ht ih =>
    rw [List.map_cons, List.flatten_cons]
    exact ih.trans (List.sublist_append_right _ _)

theorem Shrunk.lookupD {a2 a1 : List (UserId × List Conn)} (h : Shrunk a2 a1)
    (hnd : (a1.map Prod.fst).Nodup) (v : UserId) :
    List.Sublist ((alookup v a2).getD []) ((alookup v a1).getD []) := by
  induction h with
  | nil => simp [alookup]
  | @keep u cs2 cs1 t2 t1 hcs ht ih =>
    rw [List.map_cons, List.nodup_cons] at hnd
    by_cases hv : u = v
    · subst hv
      simpa [alookup] using hcs
    · simp only [alookup, if_neg hv]
      exact ih hnd.2
  | @drop u cs1 t2 t1 ht ih =>
    rw [List.map_cons, List.nodup_cons] at hnd
    by_cases hv : u = v
    · subst hv
      have hk : u ∉ t2.map Prod.fst := fun hm => hnd.1 (ht.keys.subset hm)
      rw [alookup_eq_none_iff.mpr hk]
      simp [alookup]
    · simp only [alookup, if_neg hv]
      exact ih hnd.2

theorem shrunk_of_sublist {a2 a1 : List (UserId × List Conn)}
    (h : List.Sublist a2 a1) : Shrunk a2 a1 := by
  induction h with
  | slnil => exact .nil
  | cons p h ih =>
    cases p
    exact .drop ih
  | cons₂ p h ih =>
    cases p
    exact .keep (List.Sublist.refl _) ih

theorem shrunk_aset {u : UserId} {cs1 cs2 : List Conn}
    {a : List (UserId × List Conn)} (hl : alookup u a = some cs1)
    (hcs : List.Sublist cs2 cs1) : Shrunk (aset u cs2 a) a := by
  induction a with
  | nil => simp [alookup] at hl
  | cons p rest ih =>
    obtain ⟨x, y⟩ := p
    by_cases hx : x = u
    · subst hx
      simp [alookup] at hl
      subst hl
      simp only [aset, if_pos rfl]
      exact .keep hcs (shrunk_refl rest)
    · simp [alookup, hx] at hl
      simp only [aset, if_neg hx]
      exact .keep (List.Sublist.refl y) (ih hl)

theorem adel_eq_self_of_not_mem {α β : Type} [DecidableEq α] {k : α}
    {a : List (α × β)} (h : k ∉ a.map Prod.fst) : adel k a = a := by
  induction a with
  | nil => rfl
  | cons p rest ih =>
    obtain ⟨x, y⟩ := p
    rw [List.map_cons, List.mem_cons] at h
    push_neg at h
    have hx : ¬ x = k := fun he => h.1 he.symm
    simp only [adel, if_neg hx]
    rw [ih h.2]

theorem shrunk_adel {a2 a1 : List (UserId × List Conn)} (u : UserId)
    (hnd : (a1.map Prod.fst).Nodup) (h : Shrunk a2 a1) :
    Shrunk (adel u a2) (adel u a1) := by
  induction h with
  | nil => exact .nil
  | @keep x cs2 cs1 t2 t1 hcs ht ih =>
    rw [List.map_cons, List.nodup_cons] at hnd
    by_cases hx : x = u
    · subst hx
      simp only [adel, if_pos rfl]
      exact ht
    · simp only [adel, if_neg hx]
      exact .keep hcs (ih hnd.2)
  | @drop x cs1 t2 t1 ht ih =>
    rw [List.map_cons, List.nodup_cons] at hnd
    by_cases hx : x = u
    · simp only [adel, if_pos hx]
      have hk1 : u ∉ t1.map Prod.fst := hx ▸ hnd.1
      have hk2 : u ∉ t2.map Prod.fst := fun hm => hk1 (ht.keys.subset hm)
      rw [adel_eq_self_of_not_mem hk2]
      exact ht
    · simp only [adel, if_neg hx]
      exact .drop (ih hnd.2)

/-! ### What every cascade step preserves -/

theorem pres_refl (st : CM) : Pres st st :=
  ⟨rfl, shrunk_refl _, List.Sublist.refl _, fun h => h⟩

theorem pres_trans {st1 st2 st3 : CM} (h12 : Pres st1 st2) (h23 : Pres st2 st3) :
    Pres st1 st3 :=
  ⟨h23.1.trans h12.1, shrunk_trans h23.2.1 h12.2.1, h23.2.2.1.trans h12.2.2.1,
   fun h => h23.2.2.2 (h12.2.2.2 h)⟩

section PresLemmas

variable (fails : Conn → Bool) (fuel : Nat)

theorem pres_dList_of
    (hd : ∀ ws u st, Pres st (disconnectF fails fuel ws u st).1) :
    ∀ wss u st, Pres st (disconnectListF fails fuel wss u st).1 := by
  intro wss
  induction wss with
  | nil =>
    intro u st
    rw [disconnectListF]
    exact pres_refl st
  | cons ws rest ih =>
    intro u st
    rw [disconnectListF]
    exact pres_trans (hd ws u st) (ih u _)

theorem pres_go_of
    (hdl : ∀ wss u st, Pres st (disconnectListF fails fuel wss u st).1) :
    ∀ users msg ex st, Pres st (broadcastToChatGoF fails fuel users msg ex st).1 := by
  intro users msg ex
  induction users with
  | nil =>
    intro st
    rw [broadcastToChatGoF]
    exact pres_refl st
  | cons uid rest ih =>
    intro st
    rw [broadcastToChatGoF]
    by_cases hex : excludeHit ex uid
    · simp only [if_pos hex]
      exact ih st
    · simp only [if_neg hex]
      cases halk : alookup uid st.active_connections with
      | none => exact ih st
      | some conns => exact pres_trans (hdl _ uid st) (ih _)

theorem pres_bf_of
    (hg : ∀ users msg ex st, Pres st (broadcastToChatGoF fails fuel users msg ex st).1) :
    ∀ chat msg ex st, Pres st (broadcastToChatF fails fuel chat msg ex st).1 := by
  intro chat msg ex st
  rw [broadcastToChatF]
  cases alookup chat st.chat_subscriptions with
  | none => exact pres_refl st
  | some users => exact hg users msg ex st

theorem pres_us_of
    (hbf : ∀ chat msg ex st, Pres st (broadcastToChatF fails fuel chat msg ex st).1) :
    ∀ items u status st, Pres st (bcastUserStatusGoF fails fuel items u status st).1 := by
  intro items u status
  induction items with
  | nil =>
    intro st
    rw [bcastUserStatusGoF]
    exact pres_refl st
  | cons q rest ih =>
    obtain ⟨chat, users⟩ := q
    intro st
    rw [bcastUserStatusGoF]
    by_cases hu : u ∈ users
    · simp only [if_pos hu]
      exact pres_trans (hbf chat _ (some u) st) (ih _)
    · simp only [if_neg hu]
      exact ih st

end PresLemmas

theorem pres_disconnectF (fails : Conn → Bool) :
    ∀ fuel ws u st, Pres st (disconnectF fails fuel ws u st).1 := by
  intro fuel
  induction fuel with
  | zero =>
    intro ws u st
    rw [disconnectF]
    exact pres_refl st
  | succ f ih =>
    have hus := pres_us_of fails f (pres_bf_of fails f (pres_go_of fails f
      (pres_dList_of fails f ih)))
    intro ws u st
    rw [disconnectF]
    cases halk : alookup u st.active_connections with
    | none => exact pres_refl st
    | some conns =>
      by_cases hc : (if ws ∈ conns then removeFirst ws conns else conns) = []
      · simp only [if_pos hc]
        have hsub : List.Sublist
            (adel u st.active_connections) st.active_connections :=
          adel_sublist u st.active_connections
        have h1 : Pres st
            { st with
              active_connections := adel u st.active_connections
              presence := st.presence.filter (fun v => v ≠ u) } :=
          ⟨rfl, shrunk_of_sublist hsub, List.filter_sublist _,
           fun h p hp => h p (hsub.subset hp)⟩
        exact pres_trans h1 (hus _ u "offline" _)
      · simp only [if_neg hc]
        have hcs2 : List.Sublist
            (if ws ∈ conns then removeFirst ws conns else conns) conns := by
          by_cases hw : ws ∈ conns
          · simp only [if_pos hw]
            exact removeFirst_sublist ws conns
          · simp only [if_neg hw]
            exact List.Sublist.refl conns
        refine ⟨rfl, shrunk_aset halk hcs2, List.Sublist.refl _, fun h p hp => ?_⟩
        rcases mem_aset hp with h2 | h2
        · rw [h2]
          exact hc
        · exact h p h2

theorem pres_disconnectListF (fails : Conn → Bool) (fuel : Nat) :
    ∀ wss u st, Pres st (disconnectListF fails fuel wss u st).1 :=
  pres_dList_of fails fuel (pres_disconnectF fails fuel)

theorem pres_broadcastToChatGoF (fails : Conn → Bool) (fuel : Nat) :
    ∀ users msg ex st, Pres st (broadcastToChatGoF fails fuel users msg ex st).1 :=
  pres_go_of fails fuel (pres_disconnectListF fails fuel)

theorem pres_broadcastToChatF (fails : Conn → Bool) (fuel : Nat) :
    ∀ chat msg ex st, Pres st (broadcastToChatF fails fuel chat msg ex st).1 :=
  pres_bf_of fails fuel (pres_broadcastToChatGoF fails fuel)

theorem pres_bcastUserStatusGoF (fails : Conn → Bool) (fuel : Nat) :
    ∀ items u status st, Pres st (bcastUserStatusGoF fails fuel items u status st).1 :=
  pres_us_of fails fuel (pres_broadcastToChatF fails fuel)

theorem pres_disconnect (fails : Conn → Bool) (ws : Conn) (u : UserId) (st : CM) :
    Pres st (disconnect fails ws u st).1 :=
  pres_disconnectF fails (fuelOf st) ws u st

/-! ### The registry invariant -/

theorem Pres.invariant {st r : CM} (hp : Pres st r) (hinv : Invariant st) :
    Invariant r := by
  obtain ⟨hsubs, hshr, hpres, hne⟩ := hp
  obtain ⟨h1, h2, h3, h4, h5⟩ := hinv
  refine ⟨hne h1, hshr.keys.nodup h2, hshr.conns.nodup h3, ?_, ?_⟩
  · rw [hsubs]; exact h4
  · rw [hsubs]; exact h5

theorem disjoint_of_flatten_nodup {a : List (UserId × List Conn)}
    (hf : ((a.map Prod.snd).flatten).Nodup) {u v : UserId}
    {cs ds : List Conn} (hne : u ≠ v) (hu : alookup u a = some cs)
    (hv : alookup v a = some ds) : ∀ x, x ∈ cs → x ∈ ds → False := by
  induction a with
  | nil => simp [alookup] at hu
  | cons p rest ih =>
    obtain ⟨k, l⟩ := p
    rw [List.map_cons, List.flatten_cons, List.nodup_append] at hf
    by_cases hku : k = u
    · have hcs : l = cs := by simpa [alookup, hku] using hu
      have hkv : k ≠ v := by rw [hku]; exact hne
      have hv2 : alookup v rest = some ds := by simpa [alookup, hkv] using hv
      intro x hx1 hx2
      exact hf.2.2 (hcs ▸ hx1) (alookup_mem_flatten hv2 hx2)
    · have hu2 : alookup u rest = some cs := by simpa [alookup, hku] using hu
      by_cases hkv : k = v
      · have hds : l = ds := by simpa [alookup, hkv] using hv
        intro x hx1 hx2
        exact hf.2.2 (hds ▸ hx2) (alookup_mem_flatten hu2 hx1)
      · have hv2 : alookup v rest = some ds := by simpa [alookup, hkv] using hv
        exact ih hf.2.1 hu2 hv2

theorem inv_entry_nodup {st : CM} (hinv : Invariant st) {p : UserId × List Conn}
    (hp : p ∈ st.active_connections) : p.2.Nodup :=
  (List.nodup_flatten.mp hinv.2.2.1).1 p.2 (List.mem_map.mpr ⟨p, hp, rfl⟩)

theorem inv_lookup_nodup {st : CM} (hinv : Invariant st) {u : UserId}
    {cs : List Conn} (h : alookup u st.active_connections = some cs) :
    cs.Nodup :=
  inv_entry_nodup hinv (alookup_mem h)

theorem inv_subs_nodup {st : CM} (hinv : Invariant st) {c : ChatId}
    {users : List UserId} (h : alookup c st.chat_subscriptions = some users) :
    users.Nodup :=
  hinv.2.2.2.2 _ (alookup_mem h)

/-! ### States reachable through the Connection Registry interface -/

theorem mem_flatten_aset {u : UserId} {v : List Conn} {x : Conn}
    {a : List (UserId × List Conn)}
    (hx : x ∈ (((aset u v a).map Prod.snd).flatten)) :
    x ∈ v ∨ x ∈ ((a.map Prod.snd).flatten) := by
  rw [List.mem_flatten] at hx
  obtain ⟨l, hl, hxl⟩ := hx
  obtain ⟨p, hp, hpl⟩ := List.mem_map.mp hl
  rcases mem_aset hp with h | h
  · left
    have h2 : v = l := by rw [h] at hpl; exact hpl
    rw [h2]
    exact hxl
  · right
    exact List.mem_flatten.mpr ⟨l, List.mem_map.mpr ⟨p, h, hpl⟩, hxl⟩

theorem flatten_aset_snoc {a : List (UserId × List Conn)} {u : UserId}
    {cs : List Conn} (h : alookup u a = some cs) (ws : Conn)
    (hf : ((a.map Prod.snd).flatten).Nodup) (hfresh : ∀ p ∈ a, ws ∉ p.2) :
    (((aset u (cs ++ [ws]) a).map Prod.snd).flatten).Nodup := by
  induction a with
  | nil => simp [alookup] at h
  | cons p rest ih =>
    obtain ⟨k, l⟩ := p
    rw [List.map_cons, List.flatten_cons, List.nodup_append] at hf
    by_cases hku : k = u
    · have hcs : l = cs := by simpa [alookup, hku] using h
      subst hcs
      simp only [aset, if_pos hku, List.map_cons, List.flatten_cons]
      rw [List.nodup_append]
      have hwl : ws ∉ l := hfresh (k, l) (List.mem_cons_self _ _)
      have hwrest : ws ∉ (rest.map Prod.snd).flatten := by
        intro hw
        rw [List.mem_flatten] at hw
        obtain ⟨l2, hl2, hwl2⟩ := hw
        obtain ⟨p2, hp2, hpl2⟩ := List.mem_map.mp hl2
        exact hfresh p2 (List.mem_cons_of_mem _ hp2) (hpl2 ▸ hwl2)
      refine ⟨?_, hf.2.1, ?_⟩
      · refine hf.1.append (List.nodup_singleton ws) ?_
        intro x hx hx2
        rw [List.mem_singleton] at hx2
        subst hx2
        exact hwl hx
      · intro x hx hx2
        rcases List.mem_append.mp hx with hx | hx
        · exact hf.2.2 hx hx2
        · rw [List.mem_singleton] at hx
          subst hx
          exact hwrest hx2
    · have h2 : alookup u rest = some cs := by simpa [alookup, hku] using h
      simp only [aset, if_neg hku, List.map_cons, List.flatten_cons]
      rw [List.nodup_append]
      refine ⟨hf.1, ih h2 hf.2.1 (fun p hp => hfresh p (List.mem_cons_of_mem _ hp)), ?_⟩
      intro x hx hx2
      rcases mem_flatten_aset hx2 with hx2 | hx2
      · rcases List.mem_append.mp hx2 with hx2 | hx2
        · exact hf.2.2 hx (alookup_mem_flatten h2 hx2)
        · rw [List.mem_singleton] at hx2
          subst hx2
          exact hfresh (k, l) (List.mem_cons_self _ _) hx
      · exact hf.2.2 hx hx2

theorem invariant_connect {st : CM} (hinv : Invariant st) (fails : Conn → Bool)
    (ws : Conn) (u : UserId) (hfresh : ∀ p ∈ st.active_connections, ws ∉ p.2) :
    Invariant (connect fails ws u st).1 := by
  obtain ⟨h1, h2, h3, h4, h5⟩ := hinv
  set conns := (alookup u st.active_connections).getD [] with hconns
  have hst1 : Invariant
      { st with
        active_connections := aset u (conns ++ [ws]) st.active_connections
        presence := setAdd u st.presence } := by
    refine ⟨?_, ?_, ?_, h4, h5⟩
    · intro p hp
      rcases mem_aset hp with h | h
      · rw [h]; simp
      · exact h1 p h
    · cases halk : alookup u st.active_connections with
      | none =>
        rw [aset_of_alookup_none _ halk, List.map_append]
        simp only [List.map_cons, List.map_nil]
        refine h2.append (List.nodup_singleton u) ?_
        intro x hx hx2
        rw [List.mem_singleton] at hx2
        subst hx2
        exact (alookup_eq_none_iff.mp halk) hx
      | some cs => rw [keys_aset_of_mem _ halk]; exact h2
    · cases halk : alookup u st.active_connections with
      | none =>
        have hconns0 : conns = [] := by rw [hconns, halk]; rfl
        rw [hconns0, aset_of_alookup_none _ halk, List.map_append]
        simp only [List.map_cons, List.map_nil, List.flatten_append,
          List.flatten_cons, List.flatten_nil, List.nil_append, List.append_nil]
        refine h3.append (List.nodup_singleton ws) ?_
        intro x hx hx2
        rw [List.mem_singleton] at hx2
        subst hx2
        rw [List.mem_flatten] at hx
        obtain ⟨l, hl, hxl⟩ := hx
        obtain ⟨p, hp, hpl⟩ := List.mem_map.mp hl
        exact hfresh p hp (hpl ▸ hxl)
      | some cs =>
        have hconnseq : conns = cs := by rw [hconns, halk]; rfl
        rw [hconnseq]
        exact flatten_aset_snoc halk ws h3 hfresh
  exact (pres_bcastUserStatusGoF fails _ _ u "online" _).invariant hst1

theorem invariant_subscribe {st : CM} (hinv : Invariant st) (u : UserId)
    (c : ChatId) : Invariant (subscribe_to_chat u c st) := by
  obtain ⟨h1, h2, h3, h4, h5⟩ := hinv
  refine ⟨h1, h2, h3, ?_, ?_⟩
  · cases halk : alookup c st.chat_subscriptions with
    | none =>
      rw [subscribe_to_chat, aset_of_alookup_none _ halk, List.map_append]
      simp only [List.map_cons, List.map_nil]
      refine h4.append (List.nodup_singleton c) ?_
      intro x hx hx2
      rw [List.mem_singleton] at hx2
      subst hx2
      exact (alookup_eq_none_iff.mp halk) hx
    | some users =>
      rw [subscribe_to_chat, keys_aset_of_mem _ halk]
      exact h4
  · intro q hq
    rw [subscribe_to_chat] at hq
    rcases mem_aset hq with h | h
    · rw [h]
      cases halk : alookup c st.chat_subscriptions with
      | none =>
        simp only [Option.getD_none]
        exact setAdd_nodup List.nodup_nil
      | some users =>
        simp only [Option.getD_some]
        exact setAdd_nodup (h5 _ (alookup_mem halk))
    · exact h5 q h

theorem invariant_unsubscribe {st : CM} (hinv : Invariant st) (u : UserId)
    (c : ChatId) : Invariant (unsubscribe_from_chat u c st) := by
  obtain ⟨h1, h2, h3, h4, h5⟩ := hinv
  rw [unsubscribe_from_chat]
  cases halk : alookup c st.chat_subscriptions with
  | none => exact ⟨h1, h2, h3, h4, h5⟩
  | some users =>
    refine ⟨h1, h2, h3, ?_, ?_⟩
    · rw [keys_aset_of_mem _ halk]
      exact h4
    · intro q hq
      rcases mem_aset hq with h | h
      · rw [h]
        exact (h5 _ (alookup_mem halk)).filter _
      · exact h5 q h

theorem invariant_of_reachable {st : CM} (h : Reachable st) : Invariant st := by
  induction h with
  | init =>
    refine ⟨?_, ?_, ?_, ?_, ?_⟩ <;> simp [CM.init]
  | connect_step fails ws u hst hfresh ih => exact invariant_connect ih fails ws u hfresh
  | disconnect_step fails ws u hst ih => exact (pres_disconnect fails ws u _).invariant ih
  | subscribe_step u c hst ih => exact invariant_subscribe ih u c
  | unsubscribe_step u c hst ih => exact invariant_unsubscribe ih u c

/-! ### Failure-free broadcasts in closed form -/

theorem dList_nil (fails : Conn → Bool) (fuel : Nat) (u : UserId) (st : CM) :
    disconnectListF fails fuel [] u st = (st, []) := by
  rw [disconnectListF]

theorem noFail_go (fuel : Nat) (users : List UserId) (msg : WSMsg)
    (ex : Option UserId) (st : CM) :
    broadcastToChatGoF noFail fuel users msg ex st = (st, planSends st msg ex users) := by
  induction users with
  | nil => rw [broadcastToChatGoF]; rfl
  | cons uid rest ih =>
    rw [broadcastToChatGoF]
    by_cases hex : excludeHit ex uid
    · simp only [if_pos hex, ih, planSends, List.nil_append]
    · simp only [if_neg hex]
      cases halk : alookup uid st.active_connections with
      | none =>
        rw [ih]
        simp [planSends, if_neg hex, connsOf, halk]
      | some conns =>
        have hfail : conns.filter (fun ws => noFail ws) = [] := by simp [noFail]
        dsimp only
        rw [hfail, dList_nil, ih]
        simp [planSends, if_neg hex, connsOf, halk, attemptSend, noFail]

theorem noFail_bf (fuel : Nat) (chat : ChatId) (msg : WSMsg) (ex : Option UserId)
    (st : CM) :
    broadcastToChatF noFail fuel chat msg ex st
      = (st, planSends st msg ex (subsOf chat st)) := by
  rw [broadcastToChatF]
  cases halk : alookup chat st.chat_subscriptions with
  | none => simp [subsOf, halk, planSends]
  | some users =>
    dsimp only
    rw [noFail_go]
    simp [subsOf, halk]

theorem noFail_us (fuel : Nat) (items : List (ChatId × List UserId)) (u : UserId)
    (status : String) (st : CM) :
    bcastUserStatusGoF noFail fuel items u status st
      = (st, planStatus st (statusMsg u status) u items) := by
  induction items with
  | nil => rw [bcastUserStatusGoF]; rfl
  | cons q rest ih =>
    obtain ⟨chat, users⟩ := q
    rw [bcastUserStatusGoF]
    by_cases hu : u ∈ users
    · simp only [if_pos hu, noFail_bf, ih, planStatus]
    · simp only [if_neg hu, ih, planStatus, List.nil_append]

theorem noFail_broadcast_to_chat (chat : ChatId) (ev : WSEventType) (data : WSData)
    (ex : Option UserId) (st : CM) :
    broadcast_to_chat noFail chat ev data ex st
      = (st, planSends st ⟨ev, data⟩ ex (subsOf chat st)) :=
  noFail_bf (fuelOf st) chat ⟨ev, data⟩ ex st

theorem noFail_broadcast_user_status (u : UserId) (status : String) (st : CM) :
    broadcast_user_status noFail u status st
      = (st, planStatus st (statusMsg u status) u st.chat_subscriptions) :=
  noFail_us (fuelOf st) st.chat_subscriptions u status st

/-- `broadcast_user_status` for a user that appears in no chat's subscriber
set does nothing at all, whatever the transport does. -/
theorem us_vacuous (fails : Conn → Bool) (fuel : Nat)
    (items : List (ChatId × List UserId)) (u : UserId) (status : String)
    (st : CM) (h : ∀ q ∈ items, u ∉ q.2) :
    bcastUserStatusGoF fails fuel items u status st = (st, []) := by
  induction items with
  | nil => rw [bcastUserStatusGoF]
  | cons q rest ih =>
    obtain ⟨chat, users⟩ := q
    rw [bcastUserStatusGoF]
    have hu : u ∉ users := h (chat, users) (List.mem_cons_self _ _)
    simp only [if_neg hu]
    exact ih (fun q hq => h q (List.mem_cons_of_mem _ hq))

/-! ### Where failure-free deliveries can go, and how often -/

theorem connsOf_nodup {st : CM}
    (hflat : ((st.active_connections.map Prod.snd).flatten).Nodup) (uid : UserId) :
    (connsOf uid st).Nodup := by
  rw [connsOf]
  cases halk : alookup uid st.active_connections with
  | none => simp
  | some cs =>
    simp only [Option.getD_some]
    exact (List.nodup_flatten.mp hflat).1 cs
      (List.mem_map.mpr ⟨(uid, cs), alookup_mem halk, rfl⟩)

theorem connsOf_disjoint {st : CM}
    (hflat : ((st.active_connections.map Prod.snd).flatten).Nodup)
    {uid v : UserId} {w : Conn} (hne : uid ≠ v) (hw : w ∈ connsOf v st) :
    w ∉ connsOf uid st := by
  intro hw2
  rw [connsOf] at hw hw2
  cases halkv : alookup v st.active_connections with
  | none => rw [halkv] at hw; simp at hw
  | some ds =>
    rw [halkv] at hw
    cases halku : alookup uid st.active_connections with
    | none => rw [halku] at hw2; simp at hw2
    | some cs =>
      rw [halku] at hw2
      exact disjoint_of_flatten_nodup hflat hne halku halkv w hw2 hw

theorem mem_planSends {st : CM} {msg : WSMsg} {ex : Option UserId}
    {users : List UserId} {e : Eff} (he : e ∈ planSends st msg ex users) :
    ∃ uid ∈ users, ¬ excludeHit ex uid ∧ ∃ w ∈ connsOf uid st, e = Eff.send w msg := by
  induction users with
  | nil => simp [planSends] at he
  | cons uid rest ih =>
    rw [planSends, List.mem_append] at he
    rcases he with he | he
    · by_cases hex : excludeHit ex uid
      · rw [if_pos hex] at he
        simp at he
      · rw [if_neg hex] at he
        obtain ⟨w, hw, hwe⟩ := List.mem_map.mp he
        exact ⟨uid, List.mem_cons_self _ _, hex, w, hw, hwe.symm⟩
    · obtain ⟨uid2, h1, h2, h3⟩ := ih he
      exact ⟨uid2, List.mem_cons_of_mem _ h1, h2, h3⟩

theorem count_send_map (cs : List Conn) (msg : WSMsg) (w : Conn) :
    ((cs.map (fun ws => Eff.send ws msg)).count (Eff.send w msg)) = cs.count w := by
  induction cs with
  | nil => simp
  | cons c rest ih =>
    simp only [List.map_cons, List.count_cons, ih, Eff.send.injEq]
    congr 1
    by_cases hc : c = w
    · simp [hc]
    · simp [hc]

theorem planSends_count_eq_zero {st : CM} {msg : WSMsg} {ex : Option UserId}
    {users : List UserId} {w : Conn}
    (h : ∀ uid ∈ users, w ∉ connsOf uid st) :
    (planSends st msg ex users).count (Eff.send w msg) = 0 := by
  induction users with
  | nil => simp [planSends]
  | cons uid rest ih =>
    rw [planSends, List.count_append]
    have hrest := ih (fun uid2 h2 => h uid2 (List.mem_cons_of_mem _ h2))
    rw [hrest]
    by_cases hex : excludeHit ex uid
    · simp [if_pos hex]
    · rw [if_neg hex, count_send_map]
      have := h uid (List.mem_cons_self _ _)
      simp [List.count_eq_zero.mpr this]

theorem planSends_count_eq_one {st : CM} {msg : WSMsg} {ex : Option UserId}
    {users : List UserId} {v : UserId} {w : Conn} (hnd : users.Nodup)
    (hflat : ((st.active_connections.map Prod.snd).flatten).Nodup)
    (hv : v ∈ users) (hex : ¬ excludeHit ex v) (hw : w ∈ connsOf v st) :
    (planSends st msg ex users).count (Eff.send w msg) = 1 := by
  induction users with
  | nil => simp at hv
  | cons uid rest ih =>
    rw [List.nodup_cons] at hnd
    rw [planSends, List.count_append]
    rcases List.mem_cons.mp hv with hv1 | hv1
    · subst hv1
      rw [if_neg hex, count_send_map]
      rw [List.count_eq_one_of_mem (connsOf_nodup hflat v) hw]
      have hzero : (planSends st msg ex rest).count (Eff.send w msg) = 0 := by
        refine planSends_count_eq_zero (fun uid2 h2 => ?_)
        have hne : uid2 ≠ v := fun he => hnd.1 (he ▸ h2)
        exact connsOf_disjoint hflat hne hw
      rw [hzero]
    · have hne : uid ≠ v := fun he => hnd.1 (by rw [he]; exact hv1)
      have hzero : ((if excludeHit ex uid then []
          else (connsOf uid st).map (fun ws => Eff.send ws msg)).count
            (Eff.send w msg)) = 0 := by
        by_cases hexu : excludeHit ex uid
        · simp [if_pos hexu]
        · rw [if_neg hexu, count_send_map]
          exact List.count_eq_zero.mpr (connsOf_disjoint hflat hne hw)
      rw [hzero, ih hnd.2 hv1]

theorem excludeHit_of_ne {u v : UserId} (hv : v ≠ u) :
    excludeHit (some u) v = false := by
  simp [excludeHit, hv]

theorem mem_planStatus {st : CM} {msg : WSMsg} {u : UserId}
    {items : List (ChatId × List UserId)} {e : Eff}
    (he : e ∈ planStatus st msg u items) :
    ∃ q ∈ items, u ∈ q.2 ∧ e ∈ planSends st msg (some u) (subsOf q.1 st) := by
  induction items with
  | nil => simp [planStatus] at he
  | cons q rest ih =>
    obtain ⟨chat, users⟩ := q
    rw [planStatus, List.mem_append] at he
    rcases he with he | he
    · by_cases hu : u ∈ users
      · rw [if_pos hu] at he
        exact ⟨(chat, users), List.mem_cons_self _ _, hu, he⟩
      · rw [if_neg hu] at he
        simp at he
    · obtain ⟨q2, h1, h2, h3⟩ := ih he
      exact ⟨q2, List.mem_cons_of_mem _ h1, h2, h3⟩

/-- Exact per-chat delivery count of a status broadcast: connection `w` of a
user `v ≠ u` receives the envelope once per chat whose subscriber set
contains both `u` and `v`. -/
theorem planStatus_count {st : CM} {msg : WSMsg} {u v : UserId} {w : Conn}
    {items : List (ChatId × List UserId)}
    (hflat : ((st.active_connections.map Prod.snd).flatten).Nodup)
    (hv : v ≠ u) (hw : w ∈ connsOf v st)
    (hnd : ∀ q ∈ items, q.2.Nodup)
    (hself : ∀ q ∈ items, alookup q.1 st.chat_subscriptions = some q.2) :
    (planStatus st msg u items).count (Eff.send w msg)
      = (items.filter (fun q => decide (u ∈ q.2) && decide (v ∈ q.2))).length := by
  induction items with
  | nil => simp [planStatus]
  | cons q rest ih =>
    obtain ⟨chat, users⟩ := q
    have hsub : subsOf chat st = users := by
      rw [subsOf, hself (chat, users) (List.mem_cons_self _ _)]
      rfl
    have hrest := ih (fun q hq => hnd q (List.mem_cons_of_mem _ hq))
      (fun q hq => hself q (List.mem_cons_of_mem _ hq))
    rw [planStatus, List.count_append, hrest, List.filter_cons]
    by_cases hu : u ∈ users
    · rw [if_pos hu]
      by_cases hvv : v ∈ users
      · have h1 : (planSends st msg (some u) (subsOf chat st)).count
            (Eff.send w msg) = 1 := by
          refine planSends_count_eq_one ?_ hflat ?_ ?_ hw
          · rw [hsub]; exact hnd (chat, users) (List.mem_cons_self _ _)
          · rw [hsub]; exact hvv
          · rw [excludeHit_of_ne hv]; simp
        rw [h1]
        have hcond : (decide (u ∈ users) && decide (v ∈ users)) = true := by
          simp [hu, hvv]
        simp [hcond, Nat.add_comm]
      · have h0 : (planSends st msg (some u) (subsOf chat st)).count
            (Eff.send w msg) = 0 := by
          refine planSends_count_eq_zero (fun uid h2 => ?_)
          rw [hsub] at h2
          have hne : uid ≠ v := fun he => hvv (he ▸ h2)
          exact connsOf_disjoint hflat hne hw
        have hcond : (decide (u ∈ users) && decide (v ∈ users)) = false := by
          simp [hvv]
        rw [h0]
        simp [hcond]
    · rw [if_neg hu]
      have hcond : (decide (u ∈ users) && decide (v ∈ users)) = false := by
        simp [hu]
      simp [hcond]

/-! ### Which connections an operation may write to -/

theorem AttemptsIn.nil (st : CM) : AttemptsIn [] st := by
  intro e he
  simp at he

theorem AttemptsIn.append {effs1 effs2 : List Eff} {st : CM}
    (h1 : AttemptsIn effs1 st) (h2 : AttemptsIn effs2 st) :
    AttemptsIn (effs1 ++ effs2) st := by
  intro e he w hw
  rcases List.mem_append.mp he with he | he
  · exact h1 e he w hw
  · exact h2 e he w hw

theorem AttemptsIn.mono {effs : List Eff} {st1 st2 : CM}
    (h : AttemptsIn effs st1) (hshr : Shrunk st1.active_connections st2.active_connections) :
    AttemptsIn effs st2 := by
  intro e he w hw
  exact hshr.conns.subset (h e he w hw)

theorem not_mem_flatten_adel {a : List (UserId × List Conn)}
    (hf : ((a.map Prod.snd).flatten).Nodup) {u : UserId} {cs : List Conn}
    {ws : Conn} (hu : alookup u a = some cs) (hws : ws ∈ cs) :
    ws ∉ ((adel u a).map Prod.snd).flatten := by
  induction a with
  | nil => simp [alookup] at hu
  | cons p rest ih =>
    obtain ⟨k, l⟩ := p
    rw [List.map_cons, List.flatten_cons, List.nodup_append] at hf
    by_cases hk : k = u
    · have hl : l = cs := by simpa [alookup, hk] using hu
      simp only [adel, if_pos hk]
      intro hmem
      have hwl : ws ∈ l := by rw [hl]; exact hws
      exact hf.2.2 hwl hmem
    · have hu2 : alookup u rest = some cs := by simpa [alookup, hk] using hu
      simp only [adel, if_neg hk, List.map_cons, List.flatten_cons]
      intro hmem
      rcases List.mem_append.mp hmem with hm | hm
      · exact hf.2.2 hm (alookup_mem_flatten hu2 hws)
      · exact ih hf.2.1 hu2 hm

section AttemptLemmas

variable (fails : Conn → Bool) (fuel : Nat)

theorem att_dList_of
    (hd : ∀ ws u st, AttemptsIn (disconnectF fails fuel ws u st).2 st) :
    ∀ wss u st, AttemptsIn (disconnectListF fails fuel wss u st).2 st := by
  intro wss
  induction wss with
  | nil =>
    intro u st
    rw [dList_nil]
    exact AttemptsIn.nil st
  | cons ws rest ih =>
    intro u st
    rw [disconnectListF]
    exact (hd ws u st).append
      (((ih u _).mono (pres_disconnectF fails fuel ws u st).2.1))

theorem att_go_of
    (hdl : ∀ wss u st, AttemptsIn (disconnectListF fails fuel wss u st).2 st) :
    ∀ users msg ex st, AttemptsIn (broadcastToChatGoF fails fuel users msg ex st).2 st := by
  intro users msg ex
  induction users with
  | nil =>
    intro st
    rw [broadcastToChatGoF]
    exact AttemptsIn.nil st
  | cons uid rest ih =>
    intro st
    rw [broadcastToChatGoF]
    by_cases hex : excludeHit ex uid
    · simp only [if_pos hex]
      exact ih st
    · simp only [if_neg hex]
      cases halk : alookup uid st.active_connections with
      | none => exact ih st
      | some conns =>
        dsimp only
        refine AttemptsIn.append (AttemptsIn.append ?_ ?_) ?_
        · intro e he w hw
          obtain ⟨c, hc, hce⟩ := List.mem_map.mp he
          have hwc : w = c := by
            rw [← hce] at hw
            cases hfc : fails c <;>
              simp [attemptSend, hfc, attemptsConn] at hw <;> exact hw.symm
          rw [hwc]
          exact alookup_mem_flatten halk hc
        · exact hdl _ uid st
        · exact (ih _).mono (pres_disconnectListF fails fuel _ uid st).2.1

theorem att_bf_of
    (hg : ∀ users msg ex st, AttemptsIn (broadcastToChatGoF fails fuel users msg ex st).2 st) :
    ∀ chat msg ex st, AttemptsIn (broadcastToChatF fails fuel chat msg ex st).2 st := by
  intro chat msg ex st
  rw [broadcastToChatF]
  cases alookup chat st.chat_subscriptions with
  | none => exact AttemptsIn.nil st
  | some users => exact hg users msg ex st

theorem att_us_of
    (hbf : ∀ chat msg ex st, AttemptsIn (broadcastToChatF fails fuel chat msg ex st).2 st) :
    ∀ items u status st, AttemptsIn (bcastUserStatusGoF fails fuel items u status st).2 st := by
  intro items u status
  induction items with
  | nil =>
    intro st
    rw [bcastUserStatusGoF]
    exact AttemptsIn.nil st
  | cons q rest ih =>
    obtain ⟨chat, users⟩ := q
    intro st
    rw [bcastUserStatusGoF]
    by_cases hu : u ∈ users
    · simp only [if_pos hu]
      exact (hbf chat _ (some u) st).append
        ((ih _).mono (pres_broadcastToChatF fails fuel chat _ (some u) st).2.1)
    · simp only [if_neg hu]
      exact ih st

end AttemptLemmas

theorem att_disconnectF (fails : Conn → Bool) :
    ∀ fuel ws u st, AttemptsIn (disconnectF fails fuel ws u st).2 st := by
  intro fuel
  induction fuel with
  | zero =>
    intro ws u st
    rw [disconnectF]
    exact AttemptsIn.nil st
  | succ f ih =>
    have hus := att_us_of fails f (att_bf_of fails f (att_go_of fails f
      (att_dList_of fails f ih)))
    intro ws u st
    rw [disconnectF]
    cases halk : alookup u st.active_connections with
    | none => exact AttemptsIn.nil st
    | some conns =>
      by_cases hc : (if ws ∈ conns then removeFirst ws conns else conns) = []
      · simp only [if_pos hc]
        intro e he w hw
        rcases List.mem_cons.mp he with he | he
        · rw [he] at hw
          simp [attemptsConn] at hw
        · have := hus _ u "offline" _ e he w hw
          rw [regConns] at this ⊢
          exact ((shrunk_of_sublist (adel_sublist u st.active_connections)).conns).subset this
      · simp only [if_neg hc]
        intro e he
        simp at he

theorem att_dList (fails : Conn → Bool) (fuel : Nat) :
    ∀ wss u st, AttemptsIn (disconnectListF fails fuel wss u st).2 st :=
  att_dList_of fails fuel (att_disconnectF fails fuel)

/-- Stronger form for `disconnect`: the pruning cascade never writes to any
connection registered under the disconnected user, because the cascade only
starts after the user's registry entry was deleted. -/
theorem att_disconnectF_adel (fails : Conn → Bool) (fuel : Nat) (ws : Conn)
    (u : UserId) (st : CM) {e : Eff} {w : Conn}
    (he : e ∈ (disconnectF fails fuel ws u st).2) (hw : attemptsConn e w = true) :
    w ∈ ((adel u st.active_connections).map Prod.snd).flatten := by
  cases fuel with
  | zero =>
    rw [disconnectF] at he
    simp at he
  | succ f =>
    rw [disconnectF] at he
    rcases halk : alookup u st.active_connections with _ | conns <;> rw [halk] at he <;>
      dsimp only at he
    · simp at he
    · by_cases hc : (if ws ∈ conns then removeFirst ws conns else conns) = []
      · rw [if_pos hc] at he
        dsimp only at he
        rcases List.mem_cons.mp he with he | he
        · rw [he] at hw
          simp [attemptsConn] at hw
        · exact att_us_of fails f (att_bf_of fails f (att_go_of fails f
            (att_dList_of fails f (att_disconnectF fails f)))) _ u "offline" _ e he w hw
      · rw [if_neg hc] at he
        dsimp only at he
        simp at he

/-! ### Behaviour of `disconnect` on specific registry shapes -/

theorem alookup_none_of_shrunk {a2 a1 : List (UserId × List Conn)} {u : UserId}
    (h : Shrunk a2 a1) (hu : alookup u a1 = none) : alookup u a2 = none := by
  rw [alookup_eq_none_iff] at hu ⊢
  exact fun hm => hu (h.keys.subset hm)

theorem connsOf_subset_reg {st : CM} {uid : UserId} {w : Conn}
    (hw : w ∈ connsOf uid st) : w ∈ regConns st := by
  rw [connsOf] at hw
  cases halk : alookup uid st.active_connections with
  | none => rw [halk] at hw; simp at hw
  | some cs =>
    rw [halk] at hw
    exact alookup_mem_flatten halk hw

/-- `disconnect` of the user's only registered connection: the registry key
is deleted, the Redis lease is cleared, and the offline status broadcast
runs on the shrunken state. -/
theorem disconnectF_last (fails : Conn → Bool) (f : Nat) (ws : Conn)
    (u : UserId) (st : CM) (halk : alookup u st.active_connections = some [ws]) :
    disconnectF fails (f + 1) ws u st =
      ((bcastUserStatusGoF fails f st.chat_subscriptions u "offline"
          { st with
            active_connections := adel u st.active_connections
            presence := st.presence.filter (fun v => v ≠ u) }).1,
        Eff.redisOffline u ::
          (bcastUserStatusGoF fails f st.chat_subscriptions u "offline"
            { st with
              active_connections := adel u st.active_connections
              presence := st.presence.filter (fun v => v ≠ u) }).2) := by
  rw [disconnectF]
  simp [halk, removeFirst]

/-- `disconnect` of one of several registered connections: the connection is
removed in place and nothing else happens. -/
theorem disconnectF_more (fails : Conn → Bool) (f : Nat) (ws : Conn)
    (u : UserId) (st : CM) (conns : List Conn)
    (halk : alookup u st.active_connections = some (ws :: conns))
    (hc : conns ≠ []) :
    disconnectF fails (f + 1) ws u st =
      ({ st with active_connections := aset u conns st.active_connections }, []) := by
  rw [disconnectF]
  simp [halk, removeFirst, hc]

theorem disconnectF_connsOf {fails : Conn → Bool} {f : Nat} {ws : Conn}
    {u : UserId} {st : CM} (hinv : Invariant st) :
    ∀ w, w ∈ connsOf u (disconnectF fails (f + 1) ws u st).1 →
      w ∈ connsOf u st ∧ w ≠ ws := by
  intro w hw
  rw [disconnectF] at hw
  rcases halk : alookup u st.active_connections with _ | conns <;> rw [halk] at hw <;>
    dsimp only at hw
  · rw [connsOf, halk] at hw
    simp at hw
  · by_cases hc : (if ws ∈ conns then removeFirst ws conns else conns) = []
    · rw [if_pos hc] at hw
      dsimp only at hw
      have hnone : alookup u (adel u st.active_connections) = none :=
        alookup_adel_self hinv.2.1
      have hshr := (pres_bcastUserStatusGoF fails f st.chat_subscriptions u "offline"
        { st with
          active_connections := adel u st.active_connections
          presence := st.presence.filter (fun v => v ≠ u) }).2.1
      have : alookup u (bcastUserStatusGoF fails f st.chat_subscriptions u "offline"
          { st with
            active_connections := adel u st.active_connections
            presence := st.presence.filter (fun v => v ≠ u) }).1.active_connections
          = none := alookup_none_of_shrunk hshr hnone
      rw [connsOf, this] at hw
      simp at hw
    · rw [if_neg hc] at hw
      dsimp only at hw
      rw [connsOf, alookup_aset_self] at hw
      have hnd : conns.Nodup := inv_lookup_nodup hinv halk
      rw [connsOf, halk]
      by_cases hws : ws ∈ conns
      · rw [if_pos hws] at hw
        have := (mem_removeFirst_of_nodup hnd).mp hw
        exact ⟨this.1, this.2⟩
      · rw [if_neg hws] at hw
        refine ⟨hw, fun he => hws (he ▸ hw)⟩

theorem dList_connsOf {fails : Conn → Bool} {f : Nat} {u : UserId}
    {wss : List Conn} : ∀ {st : CM}, Invariant st →
    ∀ w, w ∈ connsOf u (disconnectListF fails (f + 1) wss u st).1 →
      w ∈ connsOf u st ∧ w ∉ wss := by
  induction wss with
  | nil =>
    intro st hinv w hw
    rw [dList_nil] at hw
    exact ⟨hw, by simp⟩
  | cons ws rest ih =>
    intro st hinv w hw
    rw [disconnectListF] at hw
    dsimp only at hw
    have hinv2 : Invariant (disconnectF fails (f + 1) ws u st).1 :=
      (pres_disconnectF fails (f + 1) ws u st).invariant hinv
    obtain ⟨hw1, hw2⟩ := ih hinv2 w hw
    obtain ⟨hw3, hw4⟩ := disconnectF_connsOf hinv w hw1
    refine ⟨hw3, fun hm => ?_⟩
    rcases List.mem_cons.mp hm with hm | hm
    · exact hw4 hm
    · exact hw2 hm

/-- Disconnecting every one of a user's connections in sequence, starting
from a state holding exactly those connections: the user ends up
deregistered, the presence lease is cleared and the offline handling ran. -/
theorem dList_all {fails : Conn → Bool} {f : Nat} {u : UserId} :
    ∀ (conns : List Conn) (st : CM), Invariant st →
    alookup u st.active_connections = some conns → conns ≠ [] →
    alookup u (disconnectListF fails (f + 1) conns u st).1.active_connections = none ∧
    u ∉ (disconnectListF fails (f + 1) conns u st).1.presence ∧
    Eff.redisOffline u ∈ (disconnectListF fails (f + 1) conns u st).2 := by
  intro conns
  induction conns with
  | nil => intro st _ _ hne; exact absurd rfl hne
  | cons ws rest ih =>
    intro st hinv halk _
    rw [disconnectListF]
    dsimp only
    by_cases hr : rest = []
    · subst hr
      rw [disconnectF_last fails f ws u st halk]
      dsimp only
      rw [dList_nil]
      dsimp only
      set st1 : CM :=
        { st with
          active_connections := adel u st.active_connections
          presence := st.presence.filter (fun v => v ≠ u) } with hst1
      have hnone : alookup u st1.active_connections = none :=
        alookup_adel_self hinv.2.1
      have hpres := pres_bcastUserStatusGoF fails f st1.chat_subscriptions u "offline" st1
      refine ⟨alookup_none_of_shrunk hpres.2.1 hnone, ?_, by simp⟩
      intro hmem
      have := hpres.2.2.1.subset hmem
      simp [hst1] at this
    · rw [disconnectF_more fails f ws u st rest halk hr]
      dsimp only
      have hinv2 : Invariant
          { st with active_connections := aset u rest st.active_connections } := by
        have hp : Pres st { st with active_connections := aset u rest st.active_connections } := by
          refine ⟨rfl, shrunk_aset halk ?_, List.Sublist.refl _, fun h p hp => ?_⟩
          · exact List.sublist_cons_self ws rest
          · rcases mem_aset hp with h2 | h2
            · rw [h2]; exact hr
            · exact h p h2
        exact hp.invariant hinv
      exact ih _ hinv2 (alookup_aset_self _ _ _) hr

theorem dList_attempts_adel {fails : Conn → Bool} {fuel : Nat} {u : UserId}
    {wss : List Conn} : ∀ {st : CM} {e : Eff} {w : Conn},
    (st.active_connections.map Prod.fst).Nodup →
    e ∈ (disconnectListF fails fuel wss u st).2 → attemptsConn e w = true →
    w ∈ ((adel u st.active_connections).map Prod.snd).flatten := by
  induction wss with
  | nil =>
    intro st e w _ he _
    rw [dList_nil] at he
    simp at he
  | cons ws rest ih =>
    intro st e w hk he hw
    rw [disconnectListF] at he
    dsimp only at he
    rcases List.mem_append.mp he with he | he
    · exact att_disconnectF_adel fails fuel ws u st he hw
    · have hpres := pres_disconnectF fails fuel ws u st
      have hk2 : ((disconnectF fails fuel ws u st).1.active_connections.map Prod.fst).Nodup :=
        hpres.2.1.keys.nodup hk
      have hmem := ih hk2 he hw
      exact ((shrunk_adel u hk hpres.2.1).conns).subset hmem

theorem dList_no_attempt {fails : Conn → Bool} {fuel : Nat} {u : UserId}
    {wss : List Conn} {st : CM} {w : Conn} (hinv : Invariant st)
    (hw : w ∈ connsOf u st) :
    ∀ e ∈ (disconnectListF fails fuel wss u st).2, attemptsConn e w = false := by
  intro e he
  cases hatt : attemptsConn e w with
  | false => rfl
  | true =>
    exfalso
    have hmem := dList_attempts_adel hinv.2.1 he hatt
    rw [connsOf] at hw
    cases halk : alookup u st.active_connections with
    | none => rw [halk] at hw; simp at hw
    | some cs =>
      rw [halk] at hw
      exact not_mem_flatten_adel hinv.2.2.1 halk hw hmem

theorem count_attempt_map (fails : Conn → Bool) (cs : List Conn) (msg : WSMsg)
    (w : Conn) :
    ((cs.map (fun c => attemptSend fails c msg)).count (attemptSend fails w msg))
      = cs.count w := by
  induction cs with
  | nil => simp
  | cons c rest ih =>
    simp only [List.map_cons, List.count_cons, ih]
    congr 1
    by_cases hcw : c = w
    · simp [hcw]
    · have hne : attemptSend fails c msg ≠ attemptSend fails w msg := by
        cases hfc : fails c <;> cases hfw : fails w <;>
          simp [attemptSend, hfc, hfw, hcw]
      simp [hcw, hne]

/-! ### The claims -/

/-- C1, counterexample: user `"a"` holds one connection (1) and is
subscribed to chat `"c"`; after the read-loop's disconnect path completes
for that connection, `"a"` is STILL in `"c"`'s subscription set — the
disconnect path never touches `chat_subscriptions`, contradicting the
claim that the user is removed from every chat's set on disconnect. -/
theorem C1_counterexample :
    "a" ∈ subsOf "c" (websocket_endpoint_on_disconnect noFail 1 "a" stW).1 := by
  have hp := pres_disconnect noFail 1 "a" stW
  simp only [websocket_endpoint_on_disconnect, subsOf]
  rw [hp.1]
  decide

/-- C1, amended: when the read loop terminates and the disconnect path runs
for user `u`'s websocket `ws`, the websocket is removed from `u`'s entry in
the Connection Registry (and presence/offline handling runs if it was the
last one), but the chat subscription sets are left completely unchanged:
`u` remains in every chat's subscription set it was in. -/
theorem C1_amended (fails : Conn → Bool) (ws : Conn) (u : UserId) (st : CM)
    (hinv : Invariant st) :
    (websocket_endpoint_on_disconnect fails ws u st).1.chat_subscriptions
        = st.chat_subscriptions ∧
    (∀ c, u ∈ subsOf c st →
      u ∈ subsOf c (websocket_endpoint_on_disconnect fails ws u st).1) ∧
    ws ∉ connsOf u (websocket_endpoint_on_disconnect fails ws u st).1 := by
  have hp := pres_disconnect fails ws u st
  refine ⟨hp.1, ?_, ?_⟩
  · intro c hc
    simp only [websocket_endpoint_on_disconnect, subsOf] at hc ⊢
    rw [hp.1]
    exact hc
  · intro hmem
    simp only [websocket_endpoint_on_disconnect, disconnect, fuelOf] at hmem
    have h2 := @disconnectF_connsOf fails
      (totalConns st + st.active_connections.length) ws u st hinv ws hmem
    exact h2.2 rfl

/-- C1, amended, witness at a concrete state. -/
theorem C1_amended_witness :
    (websocket_endpoint_on_disconnect noFail 1 "a" stW).1.chat_subscriptions
        = stW.chat_subscriptions ∧
    (∀ c, "a" ∈ subsOf c stW →
      "a" ∈ subsOf c (websocket_endpoint_on_disconnect noFail 1 "a" stW).1) ∧
    1 ∉ connsOf "a" (websocket_endpoint_on_disconnect noFail 1 "a" stW).1 :=
  C1_amended noFail 1 "a" stW (by decide)

theorem alookup_self_of_keys_nodup {α β : Type} [DecidableEq α]
    {a : List (α × β)} (hnd : (a.map Prod.fst).Nodup) :
    ∀ q ∈ a, alookup q.1 a = some q.2 := by
  intro q hq
  refine alookup_of_mem_nodup ?_ hnd
  rw [Prod.mk.eta]
  exact hq

/-- C2: a failure-free `broadcast_to_chat` with `exclude_user = U` delivers
the envelope to no connection of `U` (for the real case of a non-empty user
id), and delivers it exactly once to every live connection of every other
user in the chat's subscription set. -/
theorem C2_broadcast_exclusion_and_exactly_once (st : CM) (chat : ChatId)
    (ev : WSEventType) (data : WSData) (U : UserId) (hinv : Invariant st)
    (hU : U ≠ "") :
    (∀ w ∈ connsOf U st, ∀ m,
      Eff.send w m ∉ (broadcast_to_chat noFail chat ev data (some U) st).2) ∧
    (∀ v ∈ subsOf chat st, v ≠ U → ∀ w ∈ connsOf v st,
      ((broadcast_to_chat noFail chat ev data (some U) st).2).count
        (Eff.send w ⟨ev, data⟩) = 1) := by
  rw [noFail_broadcast_to_chat]
  constructor
  · intro w hw m he
    obtain ⟨uid, huid, hex, w2, hw2, he2⟩ := mem_planSends he
    injection he2 with h1 h2
    by_cases hvu : uid = U
    · subst hvu
      apply hex
      simp [excludeHit, hU]
    · exact connsOf_disjoint hinv.2.2.1 hvu hw (h1 ▸ hw2)
  · intro v hv hvU w hw
    rcases halk : alookup chat st.chat_subscriptions with _ | users
    · rw [subsOf, halk] at hv
      simp at hv
    · have husers : subsOf chat st = users := by rw [subsOf, halk]; rfl
      refine planSends_count_eq_one ?_ hinv.2.2.1 hv ?_ hw
      · rw [husers]
        exact inv_subs_nodup hinv halk
      · rw [excludeHit_of_ne hvU]
        simp

/-- C2, witness: in `stW`, broadcasting to chat `"c"` excluding `"a"`
delivers exactly once to `"b"`'s connection 2. -/
theorem C2_witness :
    ((broadcast_to_chat noFail "c" .message_new (.raw "m") (some "a") stW).2).count
      (Eff.send 2 ⟨.message_new, .raw "m"⟩) = 1 :=
  (C2_broadcast_exclusion_and_exactly_once stW "c" .message_new (.raw "m") "a"
    (by decide) (by decide)).2 "b" (by decide) (by decide) 2 (by decide)

/-- C3: in every state reachable through connect/disconnect (and
subscribe/unsubscribe), every user key in `active_connections` maps to a
non-empty duplicate-free connection list, and `is_user_online` answers true
exactly when the user has at least one registered live connection. -/
theorem C3_registry_invariant {st : CM} (h : Reachable st) :
    (∀ p ∈ st.active_connections, p.2 ≠ [] ∧ p.2.Nodup) ∧
    (∀ u : UserId, is_user_online u st = true ↔
      ∃ cs, alookup u st.active_connections = some cs ∧ cs ≠ []) := by
  have hinv := invariant_of_reachable h
  constructor
  · intro p hp
    exact ⟨hinv.1 p hp, inv_entry_nodup hinv hp⟩
  · intro u
    constructor
    · intro hon
      rw [is_user_online] at hon
      rcases halk : alookup u st.active_connections with _ | cs
      · rw [halk] at hon
        simp at hon
      · exact ⟨cs, rfl, hinv.1 _ (alookup_mem halk)⟩
    · rintro ⟨cs, hcs, -⟩
      rw [is_user_online, hcs]
      rfl

/-- C3, witness: the state after one `connect` is reachable and satisfies
the online characterisation for that user. -/
theorem C3_witness :
    is_user_online "a" (connect noFail 1 "a" CM.init).1 = true ↔
      ∃ cs, alookup "a" (connect noFail 1 "a" CM.init).1.active_connections
        = some cs ∧ cs ≠ [] :=
  (C3_registry_invariant
    (Reachable.connect_step noFail 1 "a" Reachable.init (by decide))).2 "a"

/-- C4: when the last registered connection of `u` disconnects, the offline
presence envelope is never sent to that connection, and every live
connection of every other user receives it exactly once per chat whose
subscriber set contains both users — two shared chats mean two separate
offline events. -/
theorem C4_offline_presence_broadcast (st : CM) (u : UserId) (ws : Conn)
    (hinv : Invariant st)
    (halk : alookup u st.active_connections = some [ws]) :
    (∀ m, Eff.send ws m ∉ (websocket_endpoint_on_disconnect noFail ws u st).2) ∧
    (∀ v w, v ≠ u → w ∈ connsOf v st →
      ((websocket_endpoint_on_disconnect noFail ws u st).2).count
        (Eff.send w (statusMsg u "offline")) = sharedChatCount st u v) := by
  have heff : (websocket_endpoint_on_disconnect noFail ws u st).2
      = Eff.redisOffline u :: planStatus
          { st with
            active_connections := adel u st.active_connections
            presence := st.presence.filter (fun v => v ≠ u) }
          (statusMsg u "offline") u st.chat_subscriptions := by
    simp only [websocket_endpoint_on_disconnect, disconnect, fuelOf]
    rw [disconnectF_last noFail (totalConns st + st.active_connections.length) ws u st halk]
    rw [noFail_us]
  have hflat1 : ((((adel u st.active_connections).map Prod.snd)).flatten).Nodup :=
    ((shrunk_of_sublist (adel_sublist u st.active_connections)).conns).nodup hinv.2.2.1
  constructor
  · intro m hm
    rw [heff] at hm
    rcases List.mem_cons.mp hm with hm | hm
    · exact absurd hm (by simp)
    · obtain ⟨q, hq, hqu, hmem⟩ := mem_planStatus hm
      obtain ⟨uid, huid, hex, w2, hw2, he2⟩ := mem_planSends hmem
      injection he2 with h1 h2
      subst h1
      have hreg : ws ∈ regConns
          { st with
            active_connections := adel u st.active_connections
            presence := st.presence.filter (fun v => v ≠ u) } :=
        connsOf_subset_reg hw2
      exact not_mem_flatten_adel hinv.2.2.1 halk (by simp) hreg
  · intro v w hvu hw
    have hw1 : w ∈ connsOf v
        { st with
          active_connections := adel u st.active_connections
          presence := st.presence.filter (fun v => v ≠ u) } := by
      rw [connsOf]
      show w ∈ (alookup v (adel u st.active_connections)).getD []
      rw [alookup_adel_ne _ hvu]
      exact hw
    have hcnt := @planStatus_count
      { st with
        active_connections := adel u st.active_connections
        presence := st.presence.filter (fun v => v ≠ u) }
      (statusMsg u "offline") u v w st.chat_subscriptions hflat1 hvu hw1
      hinv.2.2.2.2 (alookup_self_of_keys_nodup hinv.2.2.2.1)
    rw [heff, List.count_cons]
    rw [hcnt]
    simp [sharedChatCount]

/-- C4, witness: `"b"` shares the two chats `"c1"`, `"c2"` with `"a"`; when
`"a"`'s last connection closes, `"b"`'s connection 2 receives exactly two
offline events. -/
theorem C4_witness :
    ((websocket_endpoint_on_disconnect noFail 1 "a" stW2).2).count
      (Eff.send 2 (statusMsg "a" "offline")) = 2 :=
  ((C4_offline_presence_broadcast stW2 "a" 1 (by decide) (by decide)).2
    "b" 2 (by decide) (by decide)).trans (by decide)

/-- C5, counterexample: a `typing.start` frame whose client-supplied
`chat_id` (`"x"`) is not a valid UUID makes `send_typing_status`'s
`uuid.UUID(chat_id)` raise; only `json.JSONDecodeError` is caught inside
the read loop, so the exception reaches `websocket_endpoint`'s outer
`except Exception` handler, which disconnects and closes the connection —
the loop-control flag is `false`, refuting the claim that handling an
inbound frame never terminates the connection. -/
theorem C5_counterexample :
    (loop_step noFail (fun _ _ => false) 1 "a" "n"
        (Inbound.frame (some "typing.start") (FrameVal.obj ⟨some "x", none⟩))
        stW).2.2 = false := by
  decide

/-- C5, amended: an undecodable frame gets an `INVALID_JSON` error envelope
and an unrecognized event kind an `UNKNOWN_EVENT` error envelope, both on
the same connection and with the read loop continuing; but frame handling
CAN terminate the connection: a valid-JSON non-object frame, a non-object
`data` value on a data-bearing kind, and a typing or read-receipt frame
whose client-supplied id fails UUID parsing all raise past the inner
handler, and the outer handler disconnects the user and closes the
connection with code 4000 (no error envelope is sent on those paths). -/
theorem C5_amended (fails : Conn → Bool) (membership : ChatId → UserId → Bool)
    (ws : Conn) (uid : UserId) (uname : String) (inb : Inbound) (st : CM) :
    (inb = Inbound.malformed →
      loop_step fails membership ws uid uname inb st
        = (st, [send_error ws "INVALID_JSON" "Invalid JSON format"], true)) ∧
    (∀ ev d, inb = Inbound.frame ev d → recognizedEvent ev = false →
      loop_step fails membership ws uid uname inb st
        = (st, [send_error ws "UNKNOWN_EVENT"
            ("Unknown event type: " ++ eventTypeRepr ev)], true)) ∧
    (inb = Inbound.nonObject →
      loop_step fails membership ws uid uname inb st
        = ((disconnect fails ws uid st).1,
           (disconnect fails ws uid st).2 ++ [Eff.close ws 4000 pyExcMessage],
           false)) ∧
    (∀ ev, inb = Inbound.frame ev FrameVal.nonObj →
      (ev = some "typing.start" ∨ ev = some "typing.stop" ∨
        ev = some "message.read" ∨ ev = some "subscribe" ∨
        ev = some "unsubscribe") →
      loop_step fails membership ws uid uname inb st
        = ((disconnect fails ws uid st).1,
           (disconnect fails ws uid st).2 ++ [Eff.close ws 4000 pyExcMessage],
           false)) ∧
    (∀ ev d c, inb = Inbound.frame ev (FrameVal.obj d) →
      (ev = some "typing.start" ∨ ev = some "typing.stop") →
      truthy d.chat_id = some c → (pyUUIDOk c && pyUUIDOk uid) = false →
      loop_step fails membership ws uid uname inb st
        = ((disconnect fails ws uid st).1,
           (disconnect fails ws uid st).2 ++ [Eff.close ws 4000 pyExcMessage],
           false)) ∧
    (∀ d c m, inb = Inbound.frame (some "message.read") (FrameVal.obj d) →
      truthy d.chat_id = some c → truthy d.message_id = some m →
      (pyUUIDOk c && pyUUIDOk uid && pyUUIDOk m) = false →
      loop_step fails membership ws uid uname inb st
        = ((disconnect fails ws uid st).1,
           (disconnect fails ws uid st).2 ++ [Eff.close ws 4000 pyExcMessage],
           false)) := by
  refine ⟨?_, ?_, ?_, ?_, ?_, ?_⟩
  · intro h
    subst h
    rfl
  · intro ev d h hrec
    subst h
    have h1 : ¬ (ev = some "ping") := by
      intro he; rw [he] at hrec; simp [recognizedEvent] at hrec
    have h2 : ¬ (ev = some "typing.start") := by
      intro he; rw [he] at hrec; simp [recognizedEvent] at hrec
    have h3 : ¬ (ev = some "typing.stop") := by
      intro he; rw [he] at hrec; simp [recognizedEvent] at hrec
    have h4 : ¬ (ev = some "message.read") := by
      intro he; rw [he] at hrec; simp [recognizedEvent] at hrec
    have h5 : ¬ (ev = some "subscribe") := by
      intro he; rw [he] at hrec; simp [recognizedEvent] at hrec
    have h6 : ¬ (ev = some "unsubscribe") := by
      intro he; rw [he] at hrec; simp [recognizedEvent] at hrec
    simp only [loop_step, handle_websocket_event, if_neg h1, if_neg h2, if_neg h3,
      if_neg h4, if_neg h5, if_neg h6]
  · intro h
    subst h
    rfl
  · intro ev h hkind
    subst h
    rcases hkind with h | h | h | h | h <;> subst h <;>
      simp +decide [loop_step, handle_websocket_event]
  · intro ev d c h hkind hc hbad
    subst h
    rcases hkind with h | h <;> subst h <;>
      simp +decide [loop_step, handle_websocket_event, hc, send_typing_status, hbad]
  · intro d c m h hc hm hbad
    subst h
    simp +decide [loop_step, handle_websocket_event, hc, hm, send_read_receipt, hbad]

/-- C5, amended, witness: the counterexample frame goes down the
raise-and-close path, disconnecting the user and closing with 4000. -/
theorem C5_amended_witness :
    loop_step noFail (fun _ _ => false) 1 "a" "n"
        (Inbound.frame (some "typing.start") (FrameVal.obj ⟨some "x", none⟩)) stW
      = ((disconnect noFail 1 "a" stW).1,
         (disconnect noFail 1 "a" stW).2 ++ [Eff.close 1 4000 pyExcMessage],
         false) :=
  (C5_amended noFail (fun _ _ => false) 1 "a" "n"
      (Inbound.frame (some "typing.start") (FrameVal.obj ⟨some "x", none⟩))
      stW).2.2.2.2.1 (some "typing.start") ⟨some "x", none⟩ "x" rfl (Or.inl rfl)
    (by decide) (by decide)

/-- C6: a handshake with a missing (absent or empty, by Python truthiness)
or unverifiable token closes the transport with status 4001 and leaves the
state completely unchanged — no registration, no subscription, no presence
lease. -/
theorem C6_unauthenticated_close_4001 (fails : Conn → Bool)
    (verify : String → Option AuthUser) (userChats : UserId → List ChatId)
    (ws : Conn) (token : Option String) (st : CM)
    (h : truthy token = none ∨ ∃ t, truthy token = some t ∧ verify t = none) :
    (websocket_endpoint_handshake fails verify userChats ws token st).1 = st ∧
    ∃ reason, (websocket_endpoint_handshake fails verify userChats ws token st).2
      = [Eff.close ws 4001 reason] := by
  rcases h with h | ⟨t, ht, hv⟩
  · rw [websocket_endpoint_handshake, h]
    exact ⟨rfl, "Missing authentication token", rfl⟩
  · rw [websocket_endpoint_handshake, ht]
    dsimp only
    rw [hv]
    exact ⟨rfl, "Invalid authentication token", rfl⟩

/-- C6, witness: absent token. -/
theorem C6_witness :
    (websocket_endpoint_handshake noFail (fun _ => none) (fun _ => []) 0 none
        CM.init).1 = CM.init ∧
    ∃ reason, (websocket_endpoint_handshake noFail (fun _ => none) (fun _ => []) 0
        none CM.init).2 = [Eff.close 0 4001 reason] :=
  C6_unauthenticated_close_4001 noFail (fun _ => none) (fun _ => []) 0 none CM.init
    (Or.inl rfl)

/-- C7: `send_personal_message` attempts the envelope on every registered
connection of the user, exactly once each (no retry); every connection
whose write failed is pruned from the registry, the failure is swallowed
(the function is total and returns normally); and when every connection
failed — in particular when the failed connection was the user's last one —
the user is deregistered, the presence lease is cleared and the offline
handling is triggered. -/
theorem C7_send_personal_message_best_effort (fails : Conn → Bool) (st : CM)
    (u : UserId) (ev : WSEventType) (data : WSData) (conns : List Conn)
    (hinv : Invariant st) (halk : alookup u st.active_connections = some conns) :
    (∃ rest, (send_personal_message fails u ev data st).2
        = conns.map (fun ws => attemptSend fails ws ⟨ev, data⟩) ++ rest) ∧
    (∀ ws ∈ conns, ((send_personal_message fails u ev data st).2).count
        (attemptSend fails ws ⟨ev, data⟩) = 1) ∧
    (∀ ws ∈ conns, fails ws = true →
      ws ∉ connsOf u (send_personal_message fails u ev data st).1) ∧
    ((∀ ws ∈ conns, fails ws = true) →
      is_user_online u (send_personal_message fails u ev data st).1 = false ∧
      u ∉ (send_personal_message fails u ev data st).1.presence ∧
      Eff.redisOffline u ∈ (send_personal_message fails u ev data st).2) := by
  have huconns : connsOf u st = conns := by rw [connsOf, halk]; rfl
  have hne : conns ≠ [] := hinv.1 _ (alookup_mem halk)
  have hnd : conns.Nodup := inv_lookup_nodup hinv halk
  simp only [send_personal_message, halk]
  refine ⟨⟨_, rfl⟩, ?_, ?_, ?_⟩
  · intro ws hws
    rw [List.count_append, count_attempt_map, List.count_eq_one_of_mem hnd hws]
    have hz : ((disconnectListF fails (fuelOf st)
        (conns.filter (fun ws => fails ws)) u st).2).count
          (attemptSend fails ws ⟨ev, data⟩) = 0 := by
      rw [List.count_eq_zero]
      intro hmem
      have hatt : attemptsConn (attemptSend fails ws ⟨ev, data⟩) ws = true := by
        cases hfw : fails ws <;> simp [attemptSend, hfw, attemptsConn]
      have hfalse := dList_no_attempt hinv (huconns ▸ hws) _ hmem
      rw [hfalse] at hatt
      exact Bool.false_ne_true hatt
    rw [hz]
  · intro ws hws hf hcon
    have hmemf : ws ∈ conns.filter (fun ws => fails ws) :=
      List.mem_filter.mpr ⟨hws, hf⟩
    simp only [fuelOf] at hcon
    have h2 := @dList_connsOf fails (totalConns st + st.active_connections.length)
      u (conns.filter (fun ws => fails ws)) st hinv ws hcon
    exact h2.2 hmemf
  · intro hall
    have hfeq : conns.filter (fun ws => fails ws) = conns :=
      List.filter_eq_self.mpr hall
    simp only [hfeq, fuelOf]
    have h3 := @dList_all fails (totalConns st + st.active_connections.length)
      u conns st hinv halk hne
    refine ⟨?_, h3.2.1, List.mem_append.mpr (Or.inr h3.2.2)⟩
    rw [is_user_online, h3.1]
    rfl

/-- C7, witness: user `"a"`'s single connection 1 is broken; after
`send_personal_message` the user is deregistered, the lease is cleared and
the offline handling ran. -/
theorem C7_witness :
    is_user_online "a" (send_personal_message fails1 "a" .notification
        (.raw "x") stW).1 = false ∧
    "a" ∉ (send_personal_message fails1 "a" .notification (.raw "x") stW).1.presence ∧
    Eff.redisOffline "a" ∈ (send_personal_message fails1 "a" .notification
        (.raw "x") stW).2 :=
  (C7_send_personal_message_best_effort fails1 stW "a" .notification (.raw "x")
    [1] (by decide) (by decide)).2.2.2 (by decide)

/-- C8: an inbound `subscribe` frame is honored exactly when the durable
store confirms active membership — the subscription set gains the user only
then; a non-member's request leaves the state unchanged and sends nothing
back (no error envelope). -/
theorem C8_subscribe_requires_membership (fails : Conn → Bool)
    (membership : ChatId → UserId → Bool) (ws : Conn) (uid : UserId)
    (uname : String) (c : ChatId) (mid : Option String) (st : CM) (hc : c ≠ "") :
    (handle_websocket_event fails membership ws uid uname (some "subscribe")
        (FrameVal.obj ⟨some c, mid⟩) st
      = if membership c uid then PyResult.ok (subscribe_to_chat uid c st) []
        else PyResult.ok st []) ∧
    uid ∈ subsOf c (subscribe_to_chat uid c st) := by
  constructor
  · rw [handle_websocket_event]
    rw [if_neg (by decide), if_neg (by decide), if_neg (by decide),
      if_neg (by decide), if_pos rfl]
    simp [truthy, hc]
  · rw [subscribe_to_chat, subsOf]
    dsimp only
    rw [alookup_aset_self]
    simp [mem_setAdd]

/-- C8, witness: a non-member's subscribe request is silently dropped. -/
theorem C8_witness :
    handle_websocket_event noFail (fun _ _ => false) 0 "a" "n" (some "subscribe")
      (FrameVal.obj ⟨some "c", none⟩) CM.init = PyResult.ok CM.init [] :=
  ((C8_subscribe_requires_membership noFail (fun _ _ => false) 0 "a" "n" "c" none
    CM.init (by decide)).1).trans (by decide)

/-- C9: after `subscribe_to_chat u c` followed by `unsubscribe_from_chat u c`,
a failure-free `broadcast_to_chat c` delivers nothing to any connection of
`u` — the round trip restores non-membership of the subscription set. -/
theorem C9_subscribe_unsubscribe_round_trip (st : CM) (u : UserId) (c : ChatId)
    (ev : WSEventType) (data : WSData) (ex : Option UserId) (hinv : Invariant st) :
    ∀ w ∈ connsOf u (unsubscribe_from_chat u c (subscribe_to_chat u c st)),
      ∀ m, Eff.send w m ∉ (broadcast_to_chat noFail c ev data ex
        (unsubscribe_from_chat u c (subscribe_to_chat u c st))).2 := by
  intro w hw m he
  rw [noFail_broadcast_to_chat] at he
  obtain ⟨uid, huid, hex, w2, hw2, he2⟩ := mem_planSends he
  injection he2 with h1 h2
  subst h1
  have hals : alookup c (subscribe_to_chat u c st).chat_subscriptions
      = some (setAdd u ((alookup c st.chat_subscriptions).getD [])) := by
    rw [subscribe_to_chat]
    exact alookup_aset_self _ _ _
  have hnotin : u ∉ subsOf c (unsubscribe_from_chat u c (subscribe_to_chat u c st)) := by
    rw [unsubscribe_from_chat, hals]
    dsimp only
    rw [subsOf]
    dsimp only
    rw [alookup_aset_self]
    simp
  have hneq : uid ≠ u := fun he3 => hnotin (he3 ▸ huid)
  have hact : (unsubscribe_from_chat u c (subscribe_to_chat u c st)).active_connections
      = st.active_connections := by
    rw [unsubscribe_from_chat, hals]
    rfl
  have hflat2 : (((unsubscribe_from_chat u c
      (subscribe_to_chat u c st)).active_connections.map Prod.snd).flatten).Nodup := by
    rw [hact]
    exact hinv.2.2.1
  exact connsOf_disjoint hflat2 hneq hw hw2

/-- C9, witness: `"a"`'s connection 1 receives nothing from a broadcast to
`"c"` after the subscribe/unsubscribe round trip. -/
theorem C9_witness :
    Eff.send 1 ⟨.message_new, .raw "m"⟩ ∉ (broadcast_to_chat noFail "c"
      .message_new (.raw "m") none
      (unsubscribe_from_chat "a" "c" (subscribe_to_chat "a" "c" stW))).2 :=
  C9_subscribe_unsubscribe_round_trip stW "a" "c" .message_new (.raw "m") none
    (by decide) 1 (by decide) ⟨.message_new, .raw "m"⟩

/-- C10: `connect` broadcasts the online status before the handshake seeds
the user's subscriptions, so a connection by a user who appears in no
chat's subscription set (e.g. the first connection in a fresh process)
produces no delivery at all — only the accept and the Redis lease; any
delivery during `connect` implies the user was already in some chat's
subscription set. -/
theorem C10_online_broadcast_needs_subscriptions (fails : Conn → Bool)
    (ws : Conn) (u : UserId) (st : CM) :
    ((∀ q ∈ st.chat_subscriptions, u ∉ q.2) →
      (connect fails ws u st).2 = [Eff.accept ws, Eff.redisOnline u]) ∧
    (∀ w m, Eff.send w m ∈ (connect fails ws u st).2 →
      ∃ q ∈ st.chat_subscriptions, u ∈ q.2) := by
  have hconn : ∀ (_ : ∀ q ∈ st.chat_subscriptions, u ∉ q.2),
      (connect fails ws u st).2 = [Eff.accept ws, Eff.redisOnline u] := by
    intro h
    simp only [connect, broadcast_user_status]
    rw [us_vacuous _ _ _ _ _ _ h]
  constructor
  · exact hconn
  · intro w m hmem
    by_cases hall : ∀ q ∈ st.chat_subscriptions, u ∉ q.2
    · rw [hconn hall] at hmem
      simp at hmem
    · push_neg at hall
      obtain ⟨q, hq, hqu⟩ := hall
      exact ⟨q, hq, hqu⟩

/-- C10, witness: a first connection in a fresh process delivers the online
event to no one. -/
theorem C10_witness :
    (connect noFail 5 "z" CM.init).2 = [Eff.accept 5, Eff.redisOnline "z"] :=
  (C10_online_broadcast_needs_subscriptions noFail 5 "z" CM.init).1 (by decide)

end ChatFlow
